import Mathlib

/-!
Verification of the MoleMath chemical-equation balancer core.

This file is a shallow embedding, in Lean 4, of the formula parser and the
equation balancer of the MoleMath repository (the files embedding
formulaParser / validator / equationBalancer / helpers), together with
theorems settling the specification claims about them.

Modelling conventions:
- JavaScript strings are modelled as `List Char`; the whitespace class of the
  JS regexes and of String.prototype.trim is `isSpaceJS` below.
- JavaScript numbers are modelled as `Int` / `Nat`.  Every arithmetic
  operation the core performs on them is exact integer arithmetic when the
  operands are integers in the float-exact range, so this is faithful there;
  the float pivot-magnitude comparison of the Gaussian elimination
  (RobustFraction.toDecimal) is modelled as the exact comparison of the
  corresponding rationals.
- JavaScript exceptions are modelled with `Except String` (the carried string
  is the JS stringification of the thrown error, e.g. the "Error: " prefix).
  Functions that catch exceptions pattern match on the `Except`.
- The element lookup (periodic-table data) is an external collaborator of the
  core; every definition that needs it takes an oracle
  `isValidElement : String → Bool` as an explicit argument.
- The human-readable step traces (`steps` fields) and the `warnings` arrays of
  validation results are presentation-only strings that no other computation
  of the core ever reads; they are omitted from the embedded result records.
- The unbounded loops of the source (tokenizer scan, recursive-descent parse)
  are embedded with an explicit fuel argument; the public wrappers supply
  fuel strictly larger than the input length, which the loops never exhaust
  since every iteration consumes at least one character / token.
-/

/-! ## JS character classes and string primitives -/

/-- Model of the JS regex class `[A-Z]` (code points 65-90). -/
def isUpperJS (c : Char) : Bool := 65 ≤ c.toNat && c.toNat ≤ 90

/-- Model of the JS regex class `[a-z]` (code points 97-122). -/
def isLowerJS (c : Char) : Bool := 97 ≤ c.toNat && c.toNat ≤ 122

/-- Model of the JS regex class `\d` (code points 48-57). -/
def isDigitJS (c : Char) : Bool := 48 ≤ c.toNat && c.toNat ≤ 57

/-- Model of the JS regex class `\s` (WhiteSpace ∪ LineTerminator), the same
set that `String.prototype.trim` strips. -/
def isSpaceJS (c : Char) : Bool :=
  c.toNat == 9 || c.toNat == 10 || c.toNat == 11 || c.toNat == 12 || c.toNat == 13 ||
  c.toNat == 32 || c.toNat == 160 || c.toNat == 0x1680 ||
  (0x2000 ≤ c.toNat && c.toNat ≤ 0x200a) ||
  c.toNat == 0x2028 || c.toNat == 0x2029 || c.toNat == 0x202f ||
  c.toNat == 0x205f || c.toNat == 0x3000 || c.toNat == 0xfeff

/-- Model of `String.prototype.trim`. -/
def jsTrim (s : List Char) : List Char :=
  ((s.dropWhile isSpaceJS).reverse.dropWhile isSpaceJS).reverse

/-- Model of `s.replace(regex-of-whitespace, empty)` applied globally: drop
every JS-whitespace character. -/
def stripWs (s : List Char) : List Char := s.filter (fun c => !isSpaceJS c)

/-- Decimal value of a digit character. -/
def digitVal (c : Char) : Nat := c.toNat - '0'.toNat

/-- Model of `parseInt` on a non-empty string of decimal digits. -/
def digitsToNat (ds : List Char) : Nat := ds.foldl (fun a c => 10 * a + digitVal c) 0

/-- Whether `pat` occurs as a prefix of `s` (helper for indexOf / includes). -/
def prefixAt : List Char → List Char → Bool
  | [], _ => true
  | _ :: _, [] => false
  | p :: ps, c :: cs => p == c && prefixAt ps cs

/-- Model of `String.prototype.indexOf` for a non-empty pattern. -/
def strIndexOf : List Char → List Char → Option Nat
  | [], _ => none
  | s@(_ :: rest), pat => if prefixAt pat s then some 0 else (strIndexOf rest pat).map (· + 1)

/-- Model of `String.prototype.includes`. -/
def strIncludes (s pat : List Char) : Bool := (strIndexOf s pat).isSome

/-- Scanning loop of the split below, with fuel (every step consumes at
least one character, so the fuel supplied by `splitOnSeq` cannot run out). -/
def splitOnSeqAux (sep0 : Char) (sepRest : List Char) : Nat → List Char → List (List Char)
  | 0, _ => []
  | _ + 1, [] => [[]]
  | fuel + 1, c :: rest =>
    if prefixAt (sep0 :: sepRest) (c :: rest) then
      [] :: splitOnSeqAux sep0 sepRest fuel (rest.drop sepRest.length)
    else
      match splitOnSeqAux sep0 sepRest fuel rest with
      | [] => [[c]]
      | part :: parts => (c :: part) :: parts

/-- Model of `String.prototype.split` with a non-empty string separator
`sep0 :: sepRest`. -/
def splitOnSeq (sep0 : Char) (sepRest : List Char) (s : List Char) : List (List Char) :=
  splitOnSeqAux sep0 sepRest (s.length + 1) s

/-- Model of `String.prototype.split` with a single-character separator. -/
def splitOnChar (sep : Char) (s : List Char) : List (List Char) := splitOnSeq sep [] s

/-- Lexicographic comparison of strings by code unit, as used by the default
`Array.prototype.sort` comparator on strings. -/
def strLtJS : List Char → List Char → Bool
  | [], [] => false
  | [], _ :: _ => true
  | _ :: _, [] => false
  | a :: as, b :: bs =>
    if a.val < b.val then true else if b.val < a.val then false else strLtJS as bs

/-- Insert into a sorted list (helper for the sort below). -/
def insertStr (x : String) : List String → List String
  | [] => [x]
  | y :: ys => if strLtJS x.toList y.toList then x :: y :: ys else y :: insertStr x ys

/-- Model of `Array.prototype.sort()` on an array of distinct strings. -/
def sortStrings : List String → List String
  | [] => []
  | x :: xs => insertStr x (sortStrings xs)

/-- Index-passing map, the model of JS `array.map((x, i) => ...)` (helper
for the maps below that read the element index). -/
def mapIdxFrom {A B : Type} (f : Nat → A → B) : Nat → List A → List B
  | _, [] => []
  | i, a :: as => f i a :: mapIdxFrom f (i + 1) as

def jsMapIdx {A B : Type} (f : Nat → A → B) (l : List A) : List B := mapIdxFrom f 0 l

/-! ## Numeric helpers (helpers.ts: gcd, lcm) -/

/-- Embeds helpers.ts `gcd` on a list of non-negative numbers (every call
site of the core passes non-negative values).  `reduce` without an initial
value starts from the first element; the inner `gcdTwo` is Euclid on
absolute values, which on naturals is `Nat.gcd`. -/
def gcdList : List Nat → Nat
  | [] => 1
  | a :: rest => rest.foldl Nat.gcd a

/-- Embeds helpers.ts `lcm` on a two-element list, `|a*b| / gcd(a, b)`.
The division is exact (the source performs it in floats). -/
def lcmTwoInt (a b : Int) : Int :=
  Int.ofNat ((a.natAbs * b.natAbs) / Nat.gcd a.natAbs b.natAbs)

/-! ## RobustFraction (equationBalancer.ts)

The source class stores `num`/`den` as JS numbers; the constructor throws on
a zero denominator, folds the sign into the numerator and reduces by the gcd.
Construction is modelled as an `Except String` value whose error is the JS
stringification of the thrown `Error`. -/

structure RobustFraction where
  num : Int
  den : Int
deriving DecidableEq, Repr

/-- Embeds the `RobustFraction` constructor (`denominator` defaults to 1 at
JS call sites written `new RobustFraction(n)`). -/
def RobustFraction.make (numerator : Int) (denominator : Int) : Except String RobustFraction :=
  if denominator = 0 then
    Except.error "Error: División por cero en fracción"
  else
    let n := if denominator < 0 then -numerator else numerator
    let d := if denominator < 0 then -denominator else denominator
    let g : Int := Int.ofNat (Nat.gcd n.natAbs d.natAbs)
    Except.ok { num := n / g, den := d / g }

def RobustFraction.add (a b : RobustFraction) : Except String RobustFraction :=
  RobustFraction.make (a.num * b.den + b.num * a.den) (a.den * b.den)

def RobustFraction.sub (a b : RobustFraction) : Except String RobustFraction :=
  RobustFraction.make (a.num * b.den - b.num * a.den) (a.den * b.den)

def RobustFraction.mul (a b : RobustFraction) : Except String RobustFraction :=
  RobustFraction.make (a.num * b.num) (a.den * b.den)

def RobustFraction.div (a b : RobustFraction) : Except String RobustFraction :=
  if b.num = 0 then Except.error "Error: División por cero"
  else RobustFraction.make (a.num * b.den) (a.den * b.num)

def RobustFraction.isZero (a : RobustFraction) : Bool := a.num == 0

def RobustFraction.isOne (a : RobustFraction) : Bool := a.num == a.den

def RobustFraction.absRF (a : RobustFraction) : Except String RobustFraction :=
  RobustFraction.make (Int.ofNat a.num.natAbs) a.den

def RobustFraction.negate (a : RobustFraction) : Except String RobustFraction :=
  RobustFraction.make (-a.num) a.den

/-- Embeds the comparison `x.abs().toDecimal() > y.abs().toDecimal()` used
for pivot selection, as the exact comparison of the rationals `|num|/den`
(the source compares the float quotients, exact for the magnitudes at play;
denominators of constructed fractions are positive). -/
def RobustFraction.absGt (a b : RobustFraction) : Bool :=
  a.num.natAbs * b.den.natAbs > b.num.natAbs * a.den.natAbs

/-- The invariant the specification states for `RobustFraction`: positive
denominator (sign folded into the numerator) and lowest terms. -/
def RFInv (f : RobustFraction) : Prop :=
  0 < f.den ∧ Nat.gcd f.num.natAbs f.den.natAbs = 1

instance (f : RobustFraction) : Decidable (RFInv f) := by
  unfold RFInv; infer_instance

/-! ### Constructor invariant -/

theorem rfMake_inv (n d : Int) (f : RobustFraction)
    (h : RobustFraction.make n d = Except.ok f) : RFInv f := by
  unfold RobustFraction.make at h
  by_cases hd : d = 0
  · simp [hd] at h
  · simp only [hd, if_false] at h
    set n' := if d < 0 then -n else n with hn'
    set d' := if d < 0 then -d else d with hd'
    have hdpos : 0 < d' := by
      rw [hd']
      split <;> omega
    set g : Int := Int.ofNat (Nat.gcd n'.natAbs d'.natAbs) with hg
    have hgnat : Nat.gcd n'.natAbs d'.natAbs ≠ 0 := by
      intro h0
      have := Nat.eq_zero_of_gcd_eq_zero_right h0
      omega
    have hgpos : 0 < g := by
      rw [hg]
      exact Int.ofNat_pos.mpr (Nat.pos_of_ne_zero hgnat)
    have hgd : g ∣ d' := by
      rw [hg]
      have : Nat.gcd n'.natAbs d'.natAbs ∣ d'.natAbs := Nat.gcd_dvd_right _ _
      exact Int.natCast_dvd_natCast.mpr this |>.trans (Int.natAbs_dvd.mpr dvd_rfl)
    have hgn : g ∣ n' := by
      rw [hg]
      have : Nat.gcd n'.natAbs d'.natAbs ∣ n'.natAbs := Nat.gcd_dvd_left _ _
      exact Int.natCast_dvd_natCast.mpr this |>.trans (Int.natAbs_dvd.mpr dvd_rfl)
    have hf : f = { num := n' / g, den := d' / g } := by
      injection h with h'
      exact h'.symm
    constructor
    · rw [hf]
      exact Int.ediv_pos_of_pos_of_dvd hdpos (le_of_lt hgpos) hgd
    · rw [hf]
      simp only
      rw [Int.natAbs_ediv _ _ hgn, Int.natAbs_ediv _ _ hgd]
      have hgabs : g.natAbs = Nat.gcd n'.natAbs d'.natAbs := by
        rw [hg]; exact Int.natAbs_ofNat _
      rw [hgabs]
      exact Nat.coprime_div_gcd_div_gcd (Nat.pos_of_ne_zero hgnat)

theorem rfMake_zero_den (n : Int) :
    RobustFraction.make n 0 = Except.error "Error: División por cero en fracción" := by
  unfold RobustFraction.make; simp

/-! ## Error message constants (constants/chemical.ts, ERROR_MESSAGES) -/

def MSG_INVALID_FORMULA : String := "Fórmula química no válida"

def MSG_INVALID_ELEMENT : String := "Elemento químico no encontrado"

def MSG_INVALID_SYNTAX : String := "Sintaxis incorrecta en la fórmula"

def MSG_EMPTY_FORMULA : String := "La fórmula no puede estar vacía"

def MSG_FORMULA_TOO_LONG : String := "La fórmula es demasiado larga"

def MSG_VALUE_TOO_LARGE : String := "El valor es demasiado grande"

def MSG_CANNOT_BALANCE : String := "No se puede balancear la ecuación"

/-! ## Tokenizer (formulaParser.ts, tokenize)

The scan produces element / number / paren tokens, skips whitespace and
returns the empty token array on any other character.  The `position` field
of the source tokens is recorded for debugging only and never read by the
parser; it is omitted here.  The source's while loop is embedded with fuel;
`tokenize` supplies fuel `length + 1`, which cannot run out since every
iteration consumes at least one character. -/

inductive Token where
  | element (sym : String)
  | number (digits : List Char)
  | openParen
  | closeParen
deriving DecidableEq, Repr

def tokenizeAux : Nat → List Char → Option (List Token)
  | 0, _ => none
  | _ + 1, [] => some []
  | fuel + 1, c :: rest =>
    if isUpperJS c then
      match rest with
      | d :: rest' =>
        if isLowerJS d then
          (tokenizeAux fuel rest').map (Token.element (String.mk [c, d]) :: ·)
        else
          (tokenizeAux fuel rest).map (Token.element (String.mk [c]) :: ·)
      | [] => some [Token.element (String.mk [c])]
    else if isDigitJS c then
      (tokenizeAux fuel (rest.dropWhile isDigitJS)).map
        (Token.number (c :: rest.takeWhile isDigitJS) :: ·)
    else if c = '(' then
      (tokenizeAux fuel rest).map (Token.openParen :: ·)
    else if c = ')' then
      (tokenizeAux fuel rest).map (Token.closeParen :: ·)
    else if isSpaceJS c then
      tokenizeAux fuel rest
    else
      none

def tokenize (s : List Char) : List Token := (tokenizeAux (s.length + 1) s).getD []

/-! ## Recursive-descent parser (formulaParser.ts, FormulaParser)

The source parser owns a token array and a mutable cursor; `parseGroup`
accumulates into a per-call `Record<string, number>` (insertion ordered).
It is embedded as a token-list-consuming function threading the accumulator
as an insertion-ordered association list; thrown `Error`s become
`Except.error` carrying the error message (the `parse` method catches them
and surfaces `error.message`). -/

/-- Embeds `elements[symbol] = (elements[symbol] || 0) + count` on an
insertion-ordered record. -/
def addCount (m : List (String × Nat)) (sym : String) (c : Nat) : List (String × Nat) :=
  if m.any (fun p => p.1 == sym) then
    m.map (fun p => if p.1 == sym then (p.1, p.2 + c) else p)
  else
    m ++ [(sym, c)]

/-- Embeds the merge loop of `parseParentheses`: add every nested count,
multiplied, into the current accumulator. -/
def mergeGroup (acc inner : List (String × Nat)) (mult : Nat) : List (String × Nat) :=
  inner.foldl (fun a p => addCount a p.1 (p.2 * mult)) acc

def parseGroup (oracle : String → Bool) :
    Nat → List (String × Nat) → List Token → Except String (List (String × Nat) × List Token)
  | 0, _, _ => Except.error "out of fuel"
  | _ + 1, acc, [] => Except.ok (acc, [])
  | fuel + 1, acc, t :: rest =>
    match t with
    | Token.closeParen => Except.ok (acc, Token.closeParen :: rest)
    | Token.number _ => Except.error MSG_INVALID_SYNTAX
    | Token.element sym =>
      if oracle sym then
        match rest with
        | Token.number ds :: rest2 =>
          let count := digitsToNat ds
          if count = 0 || count > 1000 then Except.error MSG_VALUE_TOO_LARGE
          else parseGroup oracle fuel (addCount acc sym count) rest2
        | _ => parseGroup oracle fuel (addCount acc sym 1) rest
      else
        Except.error (MSG_INVALID_ELEMENT ++ ": " ++ sym)
    | Token.openParen =>
      match parseGroup oracle fuel [] rest with
      | Except.error e => Except.error e
      | Except.ok (inner, rest2) =>
        match rest2 with
        | Token.closeParen :: rest3 =>
          match rest3 with
          | Token.number ds :: rest4 =>
            let mult := digitsToNat ds
            if mult = 0 || mult > 1000 then Except.error MSG_VALUE_TOO_LARGE
            else parseGroup oracle fuel (mergeGroup acc inner mult) rest4
          | _ => parseGroup oracle fuel (mergeGroup acc inner 1) rest3
        | _ => Except.error MSG_INVALID_SYNTAX

structure ParseResult where
  elements : List (String × Nat)
  isValid : Bool
  error : Option String
deriving DecidableEq, Repr

/-- Embeds `FormulaParser.parse`: run `parseGroup` at top level, reject
leftover tokens, catch thrown errors. -/
def runFormulaParse (oracle : String → Bool) (ts : List Token) : ParseResult :=
  match parseGroup oracle (ts.length + 1) [] ts with
  | Except.ok (m, rest) =>
    if rest.isEmpty then { elements := m, isValid := true, error := none }
    else { elements := [], isValid := false, error := some MSG_INVALID_SYNTAX }
  | Except.error e => { elements := [], isValid := false, error := some e }

/-! ## parseChemicalFormula and friends (formulaParser.ts) -/

structure ParsedElement where
  symbol : String
  count : Nat
deriving DecidableEq, Repr

structure ParsedFormula where
  elements : List ParsedElement
  formula : List Char
  isValid : Bool
  error : Option String
deriving DecidableEq, Repr

def parseChemicalFormula (oracle : String → Bool) (formula : List Char) : ParsedFormula :=
  if jsTrim formula = [] then
    { elements := [], formula := [], isValid := false, error := some MSG_EMPTY_FORMULA }
  else
    let cleanFormula := jsTrim formula
    if cleanFormula.length > 50 then
      { elements := [], formula := cleanFormula, isValid := false,
        error := some MSG_FORMULA_TOO_LONG }
    else
      let tokens := tokenize cleanFormula
      if tokens.isEmpty then
        { elements := [], formula := cleanFormula, isValid := false,
          error := some MSG_INVALID_SYNTAX }
      else
        let parseResult := runFormulaParse oracle tokens
        if parseResult.isValid then
          let elements := parseResult.elements.map (fun p => ParsedElement.mk p.1 p.2)
          let totalAtoms := elements.foldl (fun s e => s + e.count) (0 : Nat)
          if totalAtoms > 1000 then
            { elements := [], formula := cleanFormula, isValid := false,
              error := some MSG_VALUE_TOO_LARGE }
          else
            { elements := elements, formula := cleanFormula, isValid := true, error := none }
        else
          { elements := [], formula := cleanFormula, isValid := false,
            error := parseResult.error }

/-- Character class of the `normalizeFormula` regex `[A-Za-z0-9()]`. -/
def isWordCharJS (c : Char) : Bool :=
  isUpperJS c || isLowerJS c || isDigitJS c || c == '(' || c == ')'

/-- Embeds `normalizeFormula`: trim, delete all whitespace, empty out
anything containing a character other than letters, digits and parens. -/
def normalizeFormula (formula : List Char) : List Char :=
  if formula = [] then []
  else
    let normalized := stripWs (jsTrim formula)
    if normalized ≠ [] && normalized.all isWordCharJS then normalized else []

/-! ### validateFormulaSyntax (formulaParser.ts) and its regex

`VALIDATION_PATTERNS.BASIC_FORMULA` is
`^[A-Z][a-z]?\d*(\(E\)\d*|\(E E*\)\d*|E)*$` with `E = [A-Z][a-z]?\d*`:
an element token followed by any sequence of element tokens and
non-nested parenthesised element groups with an optional trailing count.
Since the alternatives start with distinct characters and every greedy
quantifier is followed only by tokens that cannot begin with the quantified
class, a deterministic left-to-right matcher decides exactly the language of
this (backtracking) regex. -/

/-- Consume one `[A-Z][a-z]?\d*` token; `none` if the input does not start
with one. -/
def matchElemRx : List Char → Option (List Char)
  | c :: rest =>
    if isUpperJS c then
      match rest with
      | d :: rest' =>
        if isLowerJS d then some (rest'.dropWhile isDigitJS)
        else some (rest.dropWhile isDigitJS)
      | [] => some []
    else none
  | [] => none

/-- Consume one or more element tokens (the body of a parenthesised group). -/
def matchElemsRx : Nat → List Char → Option (List Char)
  | 0, _ => none
  | fuel + 1, s =>
    match matchElemRx s with
    | none => none
    | some r =>
      match matchElemRx r with
      | some _ => matchElemsRx fuel r
      | none => some r

/-- Consume the `(group | element)*` tail of the formula regex; `true` iff
the whole remaining input is consumed. -/
def matchTailRx : Nat → List Char → Bool
  | 0, _ => false
  | _ + 1, [] => true
  | fuel + 1, c :: rest =>
    if c = '(' then
      match matchElemsRx (rest.length + 1) rest with
      | none => false
      | some r =>
        match r with
        | ')' :: r2 => matchTailRx fuel (r2.dropWhile isDigitJS)
        | _ => false
    else
      match matchElemRx (c :: rest) with
      | some r => matchTailRx fuel r
      | none => false

/-- Decision procedure for `VALIDATION_PATTERNS.BASIC_FORMULA`. -/
def matchBasicFormulaRx (s : List Char) : Bool :=
  match matchElemRx s with
  | some r => matchTailRx (s.length + 1) r
  | none => false

/-- Embeds the running parenthesis counter of `validateFormulaSyntax`:
must never go negative and must end at zero. -/
def parenScan : List Char → Int → Bool
  | [], n => n == 0
  | c :: rest, n =>
    let n' := if c = '(' then n + 1 else if c = ')' then n - 1 else n
    if n' < 0 then false else parenScan rest n'

def validateFormulaSyntax (formula : List Char) : Bool :=
  if jsTrim formula = [] then false
  else
    let cleanFormula := jsTrim formula
    if !matchBasicFormulaRx cleanFormula then false
    else parenScan cleanFormula 0


/-! ## Validator (validator.ts)

`ValidationResult` carries `isValid` and the collected `errors`; the
`warnings` array is presentation-only (never read by any caller that makes a
decision) and is omitted.  The transuranic / large-molecule warnings of the
source are likewise presentation-only. -/

structure ValidationResult where
  isValid : Bool
  errors : List String
deriving DecidableEq, Repr

def validateChemicalFormula (oracle : String → Bool) (formula : List Char) : ValidationResult :=
  if jsTrim formula = [] then { isValid := false, errors := [MSG_EMPTY_FORMULA] }
  else
    let cleanFormula := jsTrim formula
    if cleanFormula.length > 50 then
      { isValid := false, errors := [MSG_FORMULA_TOO_LONG] }
    else if !validateFormulaSyntax cleanFormula then
      { isValid := false, errors := [MSG_INVALID_SYNTAX] }
    else
      let parsed := parseChemicalFormula oracle cleanFormula
      if !parsed.isValid then
        { isValid := false, errors := [parsed.error.getD MSG_INVALID_FORMULA] }
      else
        let errors := parsed.elements.foldl (fun errs el =>
          let errs1 :=
            if !oracle el.symbol then errs ++ [MSG_INVALID_ELEMENT ++ ": " ++ el.symbol]
            else errs
          let errs2 :=
            if el.count = 0 then
              errs1 ++ ["Cantidad inválida para " ++ el.symbol ++ ": " ++ Nat.repr el.count]
            else errs1
          if el.count > 1000 then
            errs2 ++ ["Demasiados átomos de " ++ el.symbol ++ ": " ++ Nat.repr el.count]
          else errs2) []
        { isValid := errors.isEmpty, errors := errors }

/-- One side's formula list for `validateChemicalEquation`: split on `+`,
trim, strip one leading digit run (`replace(/^\d+/, '')`). -/
def sideFormulas (sideStr : List Char) : List (List Char) :=
  (splitOnChar '+' sideStr).map (fun f => (jsTrim f).dropWhile isDigitJS)

/-- Per-side validation loop of `validateChemicalEquation`: indexes are
1-based in the message, empty segments are skipped. -/
def sideErrors (oracle : String → Bool) (label : String) (formulas : List (List Char)) :
    List String :=
  (jsMapIdx (fun i f =>
    if f.isEmpty then []
    else
      let validation := validateChemicalFormula oracle f
      if validation.isValid then []
      else [label ++ " " ++ Nat.repr (i + 1) ++ " (" ++ String.mk f ++ "): " ++
            String.intercalate ", " validation.errors]) formulas).flatten

def validateChemicalEquation (oracle : String → Bool) (equation : List Char) :
    ValidationResult :=
  if jsTrim equation = [] then
    { isValid := false, errors := ["La ecuación no puede estar vacía"] }
  else
    let arrow? :=
      if strIncludes equation ['→'] then some ('→', ([] : List Char))
      else if strIncludes equation ['-', '>'] then some ('-', ['>'])
      else if strIncludes equation ['='] then some ('=', ([] : List Char))
      else none
    match arrow? with
    | none =>
      { isValid := false,
        errors := ["La ecuación debe contener un símbolo de reacción (→, ->, =)"] }
    | some (a0, aRest) =>
      match splitOnSeq a0 aRest equation with
      | [reactantsStr, productsStr] =>
        let emptyErrs :=
          (if jsTrim reactantsStr = [] then ["La ecuación debe tener reactivos"] else []) ++
          (if jsTrim productsStr = [] then ["La ecuación debe tener productos"] else [])
        if !emptyErrs.isEmpty then { isValid := false, errors := emptyErrs }
        else
          let errors :=
            sideErrors oracle "Reactivo" (sideFormulas reactantsStr) ++
            sideErrors oracle "Producto" (sideFormulas productsStr)
          { isValid := errors.isEmpty, errors := errors }
      | _ =>
        { isValid := false,
          errors := ["La ecuación debe tener exactamente un símbolo de reacción"] }

/-! ## Equation data model and equation parsing (equationBalancer.ts) -/

structure EquationCompound where
  formula : List Char
  coefficient : Nat
deriving DecidableEq, Repr

structure ChemicalEquation where
  reactants : List EquationCompound
  products : List EquationCompound
deriving DecidableEq, Repr

structure EquationParseResult where
  reactants : List EquationCompound
  products : List EquationCompound
  allElements : List String
  isValid : Bool
  error : Option String
deriving DecidableEq, Repr

/-- Embeds `part.match(/^(\d*)\s*(.+)$/)`: the greedy digit prefix, then
greedy whitespace, then a non-empty rest, with the regex engine's
backtracking when the rest would be empty.  (The model assumes the part
contains no line-terminator characters, true of every input considered
here.) -/
def jsCoeffMatch (part : List Char) : Option (List Char × List Char) :=
  let ds := part.takeWhile isDigitJS
  let r1 := part.dropWhile isDigitJS
  let r2 := r1.dropWhile isSpaceJS
  if !r2.isEmpty then some (ds, r2)
  else if !r1.isEmpty then some (ds, [r1.getLastD ' '])
  else if !ds.isEmpty then some (ds.dropLast, [ds.getLastD ' '])
  else none

/-- Embeds the loop body of `parseCompoundsList` over the trimmed segments. -/
def parseCompoundsAux (oracle : String → Bool) (typeName : String) :
    List (List Char) → Except String (List EquationCompound)
  | [] => Except.ok []
  | part :: rest =>
    if part.isEmpty then parseCompoundsAux oracle typeName rest
    else
      match jsCoeffMatch part with
      | none => Except.error ("Formato inválido en " ++ typeName ++ ": " ++ String.mk part)
      | some (ds, fpart) =>
        let coefficient := if ds.isEmpty then 1 else digitsToNat ds
        if coefficient = 0 || coefficient > 100 then
          Except.error ("Coeficiente inválido: " ++ Nat.repr coefficient)
        else
          let formula := jsTrim fpart
          let parsedFormula := parseChemicalFormula oracle formula
          if !parsedFormula.isValid then
            Except.error ("Fórmula inválida en " ++ typeName ++ ": " ++ String.mk formula)
          else
            (parseCompoundsAux oracle typeName rest).map
              (EquationCompound.mk formula coefficient :: ·)

def parseCompoundsList (oracle : String → Bool) (compoundsStr : List Char) (typeName : String) :
    Except String (List EquationCompound) :=
  parseCompoundsAux oracle typeName ((splitOnChar '+' compoundsStr).map jsTrim)

/-- Embeds `getAllElements`: insertion-ordered set of the symbols of every
compound that parses, then default JS sort. -/
def getAllElements (oracle : String → Bool) (compounds : List EquationCompound) :
    List String :=
  let collected := compounds.foldl (fun acc c =>
    let parsed := parseChemicalFormula oracle c.formula
    if parsed.isValid then
      parsed.elements.foldl (fun a e => if a.contains e.symbol then a else a ++ [e.symbol]) acc
    else acc) []
  sortStrings collected

def parseChemicalEquation (oracle : String → Bool) (equation : List Char) :
    EquationParseResult :=
  let validation := validateChemicalEquation oracle equation
  if !validation.isValid then
    { reactants := [], products := [], allElements := [], isValid := false,
      error := some (String.intercalate "; " validation.errors) }
  else
    let arrowHit :=
      match strIndexOf equation ['→'] with
      | some i => some (i, 1)
      | none =>
        match strIndexOf equation ['-', '>'] with
        | some i => some (i, 2)
        | none =>
          match strIndexOf equation ['='] with
          | some i => some (i, 1)
          | none => none
    match arrowHit with
    | none =>
      { reactants := [], products := [], allElements := [], isValid := false,
        error := some "No se encontró símbolo de reacción válido" }
    | some (arrowIndex, arrowLen) =>
      let reactantsStr := jsTrim (equation.take arrowIndex)
      let productsStr := jsTrim (equation.drop (arrowIndex + arrowLen))
      match parseCompoundsList oracle reactantsStr "reactants" with
      | Except.error e =>
        { reactants := [], products := [], allElements := [], isValid := false,
          error := some e }
      | Except.ok reactants =>
        match parseCompoundsList oracle productsStr "products" with
        | Except.error e =>
          { reactants := [], products := [], allElements := [], isValid := false,
            error := some e }
        | Except.ok products =>
          { reactants := reactants, products := products,
            allElements := getAllElements oracle (reactants ++ products),
            isValid := true, error := none }

/-! ## Balance checking helpers (equationBalancer.ts) -/

def countElementInSide (oracle : String → Bool) (compounds : List EquationCompound)
    (element : String) : Nat :=
  compounds.foldl (fun total c =>
    let parsed := parseChemicalFormula oracle c.formula
    if parsed.isValid then
      match parsed.elements.find? (fun e => e.symbol == element) with
      | some ed => total + ed.count * c.coefficient
      | none => total
    else total) 0

def checkBalance (oracle : String → Bool) (reactants products : List EquationCompound)
    (reactantCoeffs productCoeffs : List Nat) (allElements : List String) : Bool :=
  let tempReactants := jsMapIdx (fun i c =>
    EquationCompound.mk c.formula (reactantCoeffs.getD i 0)) reactants
  let tempProducts := jsMapIdx (fun i c =>
    EquationCompound.mk c.formula (productCoeffs.getD i 0)) products
  allElements.all (fun element =>
    countElementInSide oracle tempReactants element ==
    countElementInSide oracle tempProducts element)

/-- Odometer step on the reversed coefficient list (the source increments
the last slot first, resetting overflowed slots to 1). -/
def bumpRev (maxCoeff : Nat) : List Nat → Option (List Nat)
  | [] => none
  | c :: rest =>
    if c < maxCoeff then some ((c + 1) :: rest)
    else (bumpRev maxCoeff rest).map ((1 : Nat) :: ·)

/-- Embeds `getNextCombination`; `none` models the `false` return (search
space exhausted), in which case the source leaves every slot reset to 1. -/
def getNextCombination (coeffs : List Nat) (maxCoeff : Nat) : Option (List Nat) :=
  (bumpRev maxCoeff coeffs.reverse).map List.reverse

def simplifyCoefficients (coefficients : List Nat) : List Nat :=
  let gcdValue := gcdList coefficients
  if gcdValue > 1 then coefficients.map (· / gcdValue) else coefficients

def formatSide (compounds : List EquationCompound) : String :=
  String.intercalate " + " (compounds.map (fun c =>
    (if c.coefficient = 1 then "" else Nat.repr c.coefficient) ++ String.mk c.formula))

def formatEquation (reactants products : List EquationCompound) : String :=
  formatSide reactants ++ " → " ++ formatSide products

/-! ## BalanceResult and the trial-and-error balancer (equationBalancer.ts)

The `steps` trace of the source (human-readable strings, including the
progress messages every 1000 iterations) is presentation-only and omitted;
nothing else in the core reads it. -/

structure BalanceResult where
  originalEquation : ChemicalEquation
  balancedReactants : List EquationCompound
  balancedProducts : List EquationCompound
  balancedEquation : String
  method : String
  isValid : Bool
  error : Option String
deriving DecidableEq, Repr

inductive TAEOut where
  | found (rc pc : List Nat) (iteration : Nat)
  | stopped (iteration : Nat)
deriving DecidableEq, Repr

/-- Embeds the `while (iteration < maxIterations && !found)` search loop.
The fuel is `maxIterations - iteration`, so fuel 0 is exactly the budget
exit; `TAEOut.stopped` also models the `break` when the reactant odometer
overflows (the source then falls through to the same failure return, with
`iteration` not incremented). -/
def taeLoop (oracle : String → Bool) (reactants products : List EquationCompound)
    (allElements : List String) :
    Nat → List Nat → List Nat → Nat → TAEOut
  | 0, _, _, it => TAEOut.stopped it
  | fuel + 1, rc, pc, it =>
    if checkBalance oracle reactants products rc pc allElements then TAEOut.found rc pc it
    else
      match getNextCombination pc 15 with
      | some pc2 => taeLoop oracle reactants products allElements fuel rc pc2 (it + 1)
      | none =>
        match getNextCombination rc 15 with
        | some rc2 =>
          taeLoop oracle reactants products allElements fuel rc2
            (List.replicate pc.length 1) (it + 1)
        | none => TAEOut.stopped it

def balanceByTrialAndError (oracle : String → Bool) (equation : ChemicalEquation)
    (maxIterations : Nat := 10000) : BalanceResult :=
  let allElements := getAllElements oracle (equation.reactants ++ equation.products)
  let initialReactantCoeffs := List.replicate equation.reactants.length 1
  let initialProductCoeffs := List.replicate equation.products.length 1
  if checkBalance oracle equation.reactants equation.products
      initialReactantCoeffs initialProductCoeffs allElements then
    { originalEquation := equation,
      balancedReactants := equation.reactants,
      balancedProducts := equation.products,
      balancedEquation := formatEquation equation.reactants equation.products,
      method := "trial-and-error", isValid := true, error := none }
  else
    let numReactants := equation.reactants.length
    match taeLoop oracle equation.reactants equation.products allElements
        maxIterations initialReactantCoeffs initialProductCoeffs 0 with
    | TAEOut.found rc pc _ =>
      let allCoeffs := rc ++ pc
      let simplified := simplifyCoefficients allCoeffs
      let finalReactantCoeffs := simplified.take numReactants
      let finalProductCoeffs := simplified.drop numReactants
      let balancedReactants := jsMapIdx (fun i c =>
        EquationCompound.mk c.formula (finalReactantCoeffs.getD i 0)) equation.reactants
      let balancedProducts := jsMapIdx (fun i c =>
        EquationCompound.mk c.formula (finalProductCoeffs.getD i 0)) equation.products
      { originalEquation := equation,
        balancedReactants := balancedReactants,
        balancedProducts := balancedProducts,
        balancedEquation := formatEquation balancedReactants balancedProducts,
        method := "trial-and-error", isValid := true, error := none }
    | TAEOut.stopped it =>
      { originalEquation := equation,
        balancedReactants := equation.reactants,
        balancedProducts := equation.products,
        balancedEquation := "",
        method := "trial-and-error", isValid := false,
        error := some (MSG_CANNOT_BALANCE ++ " (" ++ Nat.repr it ++ " combinaciones probadas)") }

/-! ## Algebraic balancer (equationBalancer.ts)

`buildElementMatrix`, `gaussianEliminationRobust`, `findNullSpace`,
`normalizeToPositiveIntegers` and `validateSolutionExhaustive` read only the
compound formulas (never the input coefficients), so their embeddings take
the two formula lists; `balanceByAlgebraicMethodRobust` extracts those lists
exactly as the source's `map(c => c.formula)` does.  Raised exceptions are
`Except.error` values carrying the JS stringification of the error; the
top-level catch converts them into an invalid `BalanceResult`. -/

def rfGet (m : List (List RobustFraction)) (r c : Nat) : RobustFraction :=
  (m.getD r []).getD c ⟨0, 1⟩

def buildElementMatrixCore (oracle : String → Bool) (reacF prodF : List (List Char)) :
    Except String (List (List RobustFraction) × List String × List (List Char)) := do
  let allFormulas := reacF ++ prodF
  let compoundElements ← allFormulas.mapM (fun f =>
    let parsed := parseChemicalFormula oracle f
    if parsed.isValid then
      Except.ok (parsed.elements.map (fun e => (e.symbol, e.count)))
    else
      Except.error ("Error: No se pudo parsear: " ++ String.mk f))
  let elementSet := compoundElements.foldl (fun acc dict =>
    dict.foldl (fun a p => if a.contains p.1 then a else a ++ [p.1]) acc) []
  let elements := sortStrings elementSet
  let matrix ← elements.mapM (fun element => do
    let rRow ← (List.range reacF.length).mapM (fun i =>
      let count :=
        (((compoundElements.getD i []).find? (fun p => p.1 == element)).map Prod.snd).getD 0
      RobustFraction.make (Int.ofNat count) 1)
    let pRow ← (List.range prodF.length).mapM (fun i =>
      let count :=
        (((compoundElements.getD (reacF.length + i) []).find?
          (fun p => p.1 == element)).map Prod.snd).getD 0
      RobustFraction.make (-(Int.ofNat count)) 1)
    Except.ok (rRow ++ pRow))
  Except.ok (matrix, elements, allFormulas)

structure GaussResult where
  reducedMatrix : List (List RobustFraction)
  rank : Nat
  pivotCols : List Nat
deriving DecidableEq, Repr

/-- Embeds `gaussianEliminationRobust`.  An empty matrix models the source's
`matrix[0].length` access on `undefined`, a TypeError caught by the caller. -/
def gaussianEliminationRobust (matrix : List (List RobustFraction)) :
    Except String GaussResult :=
  match matrix with
  | [] => Except.error "TypeError: Cannot read properties of undefined (reading 'length')"
  | r0 :: _ => do
    let rows := matrix.length
    let cols := r0.length
    let workMatrix ← matrix.mapM (fun row => row.mapM (fun f => RobustFraction.make f.num f.den))
    let final ← (List.range cols).foldlM
      (fun (st : List (List RobustFraction) × Nat × List Nat) col => do
        let (wm, currentRow, pivotCols) := st
        if currentRow < rows then
          let best := (List.range (rows - currentRow)).foldl
            (fun (b : Option Nat × RobustFraction) k =>
              let row := currentRow + k
              let v := rfGet wm row col
              if RobustFraction.absGt v b.2 then (some row, v) else b)
            (none, ⟨0, 1⟩)
          match best.1 with
          | none => pure (wm, currentRow, pivotCols)
          | some bestPivotRow =>
            if (best.2).isZero then pure (wm, currentRow, pivotCols)
            else do
              let wm1 :=
                if bestPivotRow ≠ currentRow then
                  (wm.set currentRow (wm.getD bestPivotRow [])).set bestPivotRow
                    (wm.getD currentRow [])
                else wm
              let pivotCols1 := pivotCols ++ [col]
              let pivotValue := rfGet wm1 currentRow col
              let wm2 ←
                if pivotValue.isOne then pure wm1
                else do
                  let newRow ← (wm1.getD currentRow []).mapM (fun cell => cell.div pivotValue)
                  pure (wm1.set currentRow newRow)
              let wm3 ← (List.range rows).foldlM (fun m row => do
                if row = currentRow then pure m
                else if (rfGet m row col).isZero then pure m
                else do
                  let factor := rfGet m row col
                  let newRow ← (List.range cols).mapM (fun c => do
                    let subtraction ← (rfGet m currentRow c).mul factor
                    (rfGet m row c).sub subtraction)
                  pure (m.set row newRow)) wm2
              pure (wm3, currentRow + 1, pivotCols1)
        else pure st)
      (workMatrix, 0, ([] : List Nat))
    let (wm, _, pivotCols) := final
    Except.ok { reducedMatrix := wm, rank := pivotCols.length, pivotCols := pivotCols }

def findNullSpace (reducedMatrix : List (List RobustFraction)) (rank : Nat)
    (pivotCols : List Nat) (numVars : Nat) : Except String (List RobustFraction) := do
  let freeVars := (List.range numVars).filter (fun i => !(pivotCols.contains i))
  let freeVarIndex := match freeVars with | [] => numVars - 1 | f :: _ => f
  let solution0 := (List.range numVars).map (fun _ => (⟨0, 1⟩ : RobustFraction))
  let solution1 := solution0.set freeVarIndex ⟨1, 1⟩
  let solution ← ((List.range rank).reverse).foldlM (fun sol i => do
    let pivotCol := pivotCols.getD i 0
    if pivotCol = freeVarIndex then pure sol
    else do
      let sum ← (List.range' (pivotCol + 1) (numVars - (pivotCol + 1))).foldlM
        (fun (s : RobustFraction) j => do
          let prod ← (rfGet reducedMatrix i j).mul (sol.getD j ⟨0, 1⟩)
          s.add prod)
        (⟨0, 1⟩ : RobustFraction)
      let neg ← sum.negate
      pure (sol.set pivotCol neg)) solution1
  Except.ok solution

/-- Embeds `normalizeToPositiveIntegers`.  All the divisions are exact
(the lcm clears the denominators and the gcd divides every entry), so the
source's float `Math.round(Math.abs(x) / gcd)` is natural-number division. -/
def normalizeToPositiveIntegers (fractionSolution : List RobustFraction) :
    Except String (List Nat) := do
  let allNegative := fractionSolution.all (fun f => f.num ≤ 0)
  let sol ←
    if allNegative then fractionSolution.mapM RobustFraction.negate
    else pure fractionSolution
  let denominators := sol.map (·.den)
  let lcmValue := denominators.foldl (fun a b => lcmTwoInt a b) 1
  let integers := sol.map (fun f => (f.num * lcmValue) / f.den)
  let positiveIntegers := (integers.map Int.natAbs).filter (fun x => x > 0)
  let gcdValue := if !positiveIntegers.isEmpty then gcdList positiveIntegers else 1
  Except.ok (integers.map (fun x => x.natAbs / gcdValue))

def validateSolutionExhaustiveCore (oracle : String → Bool) (reacF prodF : List (List Char))
    (coefficients : List Nat) (elements : List String) : Bool :=
  elements.all (fun element =>
    let reactantCount := (List.range reacF.length).foldl (fun total i =>
      let parsed := parseChemicalFormula oracle (reacF.getD i [])
      if parsed.isValid then
        match parsed.elements.find? (fun e => e.symbol == element) with
        | some ed => total + ed.count * (coefficients.getD i 0)
        | none => total
      else total) (0 : Nat)
    let productCount := (List.range prodF.length).foldl (fun total i =>
      let parsed := parseChemicalFormula oracle (prodF.getD i [])
      if parsed.isValid then
        match parsed.elements.find? (fun e => e.symbol == element) with
        | some ed => total + ed.count * (coefficients.getD (reacF.length + i) 0)
        | none => total
      else total) (0 : Nat)
    reactantCount == productCount)

inductive AlgOutcome where
  | overdet
  | invalidSol
  | success (coeffs : List Nat)
deriving DecidableEq, Repr

/-- The try-block of `balanceByAlgebraicMethodRobust`, as a function of the
two formula lists (the only equation data the pipeline reads). -/
def algebraicCore (oracle : String → Bool) (reacF prodF : List (List Char)) :
    Except String AlgOutcome :=
  match buildElementMatrixCore oracle reacF prodF with
  | Except.error e => Except.error e
  | Except.ok (matrix, elements, compounds) =>
    match gaussianEliminationRobust matrix with
    | Except.error e => Except.error e
    | Except.ok ger =>
      if ger.rank = compounds.length then Except.ok AlgOutcome.overdet
      else
        match findNullSpace ger.reducedMatrix ger.rank ger.pivotCols compounds.length with
        | Except.error e => Except.error e
        | Except.ok fractionSolution =>
          match normalizeToPositiveIntegers fractionSolution with
          | Except.error e => Except.error e
          | Except.ok integerCoeffs =>
            if validateSolutionExhaustiveCore oracle reacF prodF integerCoeffs elements then
              Except.ok (AlgOutcome.success integerCoeffs)
            else Except.ok AlgOutcome.invalidSol

def createErrorResult (equation : ChemicalEquation) (method : String) (error : String) :
    BalanceResult :=
  { originalEquation := equation,
    balancedReactants := equation.reactants,
    balancedProducts := equation.products,
    balancedEquation := "",
    method := method, isValid := false, error := some error }

def balanceByAlgebraicMethodRobust (oracle : String → Bool) (equation : ChemicalEquation) :
    BalanceResult :=
  match algebraicCore oracle (equation.reactants.map (·.formula))
      (equation.products.map (·.formula)) with
  | Except.error e =>
    createErrorResult equation "algebraic" ("Error en método algebraico: " ++ e)
  | Except.ok AlgOutcome.overdet =>
    createErrorResult equation "algebraic" "Sistema sobredeterminado"
  | Except.ok AlgOutcome.invalidSol =>
    createErrorResult equation "algebraic" "La solución no balancea correctamente"
  | Except.ok (AlgOutcome.success integerCoeffs) =>
    let reactantCoeffs := integerCoeffs.take equation.reactants.length
    let productCoeffs := integerCoeffs.drop equation.reactants.length
    let balancedReactants := jsMapIdx (fun i c =>
      EquationCompound.mk c.formula (reactantCoeffs.getD i 0)) equation.reactants
    let balancedProducts := jsMapIdx (fun i c =>
      EquationCompound.mk c.formula (productCoeffs.getD i 0)) equation.products
    { originalEquation := equation,
      balancedReactants := balancedReactants,
      balancedProducts := balancedProducts,
      balancedEquation := formatEquation balancedReactants balancedProducts,
      method := "algebraic", isValid := true, error := none }

/-! ## Top-level entry point (equationBalancer.ts, balanceChemicalEquation) -/

structure BalanceInput where
  equation : List Char
  method : Option String
deriving DecidableEq, Repr

def balanceChemicalEquation (oracle : String → Bool) (input : BalanceInput) : BalanceResult :=
  let method := input.method.getD "trial-and-error"
  let parseResult := parseChemicalEquation oracle input.equation
  if !parseResult.isValid then
    { originalEquation := { reactants := [], products := [] },
      balancedReactants := [], balancedProducts := [], balancedEquation := "",
      method := method, isValid := false, error := parseResult.error }
  else
    let chemicalEquation : ChemicalEquation :=
      { reactants := parseResult.reactants, products := parseResult.products }
    if method == "trial-and-error" then
      balanceByTrialAndError oracle chemicalEquation 10000
    else if method == "algebraic" then
      balanceByAlgebraicMethodRobust oracle chemicalEquation
    else
      { originalEquation := chemicalEquation,
        balancedReactants := [], balancedProducts := [], balancedEquation := "",
        method := method, isValid := false,
        error := some ("Método de balance no soportado: " ++ method) }


/-! ## Claim theorems -/

/-- Modelled from the spec: the element-validity oracle `isValidElement`
(backed by periodic-table data the core consumes as a read-only external
collaborator), restricted to the element symbols the concrete inputs of this
file use.  Every concrete formula below queries the oracle only on these
symbols, so any real periodic table validating H, O and S gives the same
results. -/
def sampleOracle : String → Bool := fun s => s == "H" || s == "O" || s == "S"

/-- The full returned coefficient vector of a balance result: reactant
coefficients followed by product coefficients. -/
def resultCoefficients (r : BalanceResult) : List Nat :=
  (r.balancedReactants ++ r.balancedProducts).map (·.coefficient)

/-- C1 (failing-input evaluation): on the equation string "2H2O = H2O" the
trial-and-error method of `balanceChemicalEquation` reports `isValid = true`
(its all-ones pre-check passes, and it then returns the input compound lists
with their original parsed coefficients 2 and 1), yet hydrogen is not
conserved under the returned coefficients: 2·2 = 4 on the reactant side
against 1·2 = 2 on the product side.  This contradicts the round-trip
conservation property of the specification. -/
theorem C1_conservation_violated_on_early_return :
    (balanceChemicalEquation sampleOracle
      { equation := "2H2O = H2O".toList, method := some "trial-and-error" }).isValid = true ∧
    resultCoefficients (balanceChemicalEquation sampleOracle
      { equation := "2H2O = H2O".toList, method := some "trial-and-error" }) = [2, 1] ∧
    countElementInSide sampleOracle
      (balanceChemicalEquation sampleOracle
        { equation := "2H2O = H2O".toList, method := some "trial-and-error" }).balancedReactants
      "H" = 4 ∧
    countElementInSide sampleOracle
      (balanceChemicalEquation sampleOracle
        { equation := "2H2O = H2O".toList, method := some "trial-and-error" }).balancedProducts
      "H" = 2 := by
  decide

/-- C2 (failing-input evaluation): on the equation string
"H2 + O2 = H2O + O2" the algebraic method returns `isValid = true` with
coefficient vector (2, 1, 2, 0): the product-side O2 receives coefficient 0,
which conserves every element but is not a positive integer ≥ 1.  This
contradicts the positivity property of the specification. -/
theorem C2_zero_coefficient_returned :
    (balanceChemicalEquation sampleOracle
      { equation := "H2 + O2 = H2O + O2".toList, method := some "algebraic" }).isValid = true ∧
    resultCoefficients (balanceChemicalEquation sampleOracle
      { equation := "H2 + O2 = H2O + O2".toList, method := some "algebraic" }) = [2, 1, 2, 0] := by
  decide

/-- C3 (failing-input evaluation): on the equation string "2H2O = 2H2O" the
trial-and-error method reports `isValid = true` and returns the original
coefficient vector (2, 2), whose gcd is 2, not 1.  This contradicts the
minimality property of the specification. -/
theorem C3_gcd_two_returned :
    (balanceChemicalEquation sampleOracle
      { equation := "2H2O = 2H2O".toList, method := some "trial-and-error" }).isValid = true ∧
    resultCoefficients (balanceChemicalEquation sampleOracle
      { equation := "2H2O = 2H2O".toList, method := some "trial-and-error" }) = [2, 2] ∧
    gcdList (resultCoefficients (balanceChemicalEquation sampleOracle
      { equation := "2H2O = 2H2O".toList, method := some "trial-and-error" })) = 2 := by
  decide

set_option maxRecDepth 100000 in
/-- C4: the equation string "H2 + O2 = H2O" balances to 2 H2 + 1 O2 → 2 H2O
under both the trial-and-error method and the algebraic method of
`balanceChemicalEquation`, with `isValid = true`. -/
theorem C4_water_balances_both_methods :
    (balanceChemicalEquation sampleOracle
      { equation := "H2 + O2 = H2O".toList, method := some "trial-and-error" }).isValid = true ∧
    resultCoefficients (balanceChemicalEquation sampleOracle
      { equation := "H2 + O2 = H2O".toList, method := some "trial-and-error" }) = [2, 1, 2] ∧
    (balanceChemicalEquation sampleOracle
      { equation := "H2 + O2 = H2O".toList, method := some "algebraic" }).isValid = true ∧
    resultCoefficients (balanceChemicalEquation sampleOracle
      { equation := "H2 + O2 = H2O".toList, method := some "algebraic" }) = [2, 1, 2] := by
  decide

/-- C6: every `RobustFraction` produced by the constructor or by any of the
arithmetic operations satisfies the invariant (positive denominator with the
sign folded into the numerator, and lowest terms), and constructing with a
zero denominator is an error. -/
theorem C6_robustFraction_invariant :
    (∀ n d f, RobustFraction.make n d = Except.ok f → RFInv f) ∧
    (∀ n, RobustFraction.make n 0 = Except.error "Error: División por cero en fracción") ∧
    (∀ a b f, RobustFraction.add a b = Except.ok f → RFInv f) ∧
    (∀ a b f, RobustFraction.sub a b = Except.ok f → RFInv f) ∧
    (∀ a b f, RobustFraction.mul a b = Except.ok f → RFInv f) ∧
    (∀ a b f, RobustFraction.div a b = Except.ok f → RFInv f) ∧
    (∀ a f, RobustFraction.absRF a = Except.ok f → RFInv f) ∧
    (∀ a f, RobustFraction.negate a = Except.ok f → RFInv f) := by
  refine ⟨rfMake_inv, rfMake_zero_den, ?_, ?_, ?_, ?_, ?_, ?_⟩
  · intro a b f h; exact rfMake_inv _ _ _ h
  · intro a b f h; exact rfMake_inv _ _ _ h
  · intro a b f h; exact rfMake_inv _ _ _ h
  · intro a b f h
    unfold RobustFraction.div at h
    by_cases hz : b.num = 0
    · simp [hz] at h
    · simp only [hz, if_false] at h
      exact rfMake_inv _ _ _ h
  · intro a f h; exact rfMake_inv _ _ _ h
  · intro a f h; exact rfMake_inv _ _ _ h

/-- Witness for C6 at concrete inputs: constructing 2/4 yields the reduced
fraction 1/2 satisfying the invariant, and a zero denominator errors. -/
theorem C6_witness :
    RFInv { num := 1, den := 2 } ∧
    RobustFraction.make 1 0 = Except.error "Error: División por cero en fracción" :=
  ⟨C6_robustFraction_invariant.1 2 4 { num := 1, den := 2 } rfl,
   C6_robustFraction_invariant.2.1 1⟩

/-- C7: whenever the matrix of an equation builds and the Gaussian
elimination completes with rank equal to the number of compounds, the
algebraic method returns the invalid "Sistema sobredeterminado" result
(`algebraicCore` short-circuits to `AlgOutcome.overdet` before
`findNullSpace` is reached). -/
theorem C7_overdetermined_rank_full (oracle : String → Bool) (eq : ChemicalEquation)
    (matrix : List (List RobustFraction)) (elements : List String)
    (compounds : List (List Char)) (ger : GaussResult)
    (hbem : buildElementMatrixCore oracle (eq.reactants.map (·.formula))
        (eq.products.map (·.formula)) = Except.ok (matrix, elements, compounds))
    (hger : gaussianEliminationRobust matrix = Except.ok ger)
    (hrank : ger.rank = compounds.length) :
    balanceByAlgebraicMethodRobust oracle eq =
      createErrorResult eq "algebraic" "Sistema sobredeterminado" ∧
    (balanceByAlgebraicMethodRobust oracle eq).isValid = false ∧
    (balanceByAlgebraicMethodRobust oracle eq).error = some "Sistema sobredeterminado" := by
  have hcore : algebraicCore oracle (eq.reactants.map (·.formula))
      (eq.products.map (·.formula)) = Except.ok AlgOutcome.overdet := by
    unfold algebraicCore
    rw [hbem]
    dsimp only
    rw [hger]
    dsimp only
    rw [if_pos hrank]
  unfold balanceByAlgebraicMethodRobust
  rw [hcore]
  exact ⟨rfl, rfl, rfl⟩

def c7Matrix : List (List RobustFraction) :=
  [[{ num := 2, den := 1 }, { num := 0, den := 1 }],
   [{ num := 0, den := 1 }, { num := -2, den := 1 }]]

def c7Ger : GaussResult :=
  { reducedMatrix := [[{ num := 1, den := 1 }, { num := 0, den := 1 }],
                      [{ num := 0, den := 1 }, { num := 1, den := 1 }]],
    rank := 2, pivotCols := [0, 1] }

/-- Witness for C7: the equation H2 = O2 has a 2×2 stoichiometric matrix of
full rank, and the algebraic method reports the overdetermined system. -/
theorem C7_witness :
    balanceByAlgebraicMethodRobust sampleOracle
      { reactants := [{ formula := "H2".toList, coefficient := 1 }],
        products := [{ formula := "O2".toList, coefficient := 1 }] } =
      createErrorResult
        { reactants := [{ formula := "H2".toList, coefficient := 1 }],
          products := [{ formula := "O2".toList, coefficient := 1 }] }
        "algebraic" "Sistema sobredeterminado" :=
  (C7_overdetermined_rank_full sampleOracle
    { reactants := [{ formula := "H2".toList, coefficient := 1 }],
      products := [{ formula := "O2".toList, coefficient := 1 }] }
    c7Matrix ["H", "O"] ["H2".toList, "O2".toList] c7Ger rfl rfl rfl).1

/-- C9: when an equation's conservation constraints already hold with every
coefficient taken to be 1, `balanceByTrialAndError` returns `isValid = true`
with the input compound lists returned unchanged — including their original
input coefficients, whatever they are. -/
theorem C9_early_return_frame (oracle : String → Bool) (eq : ChemicalEquation)
    (h : checkBalance oracle eq.reactants eq.products
        (List.replicate eq.reactants.length 1) (List.replicate eq.products.length 1)
        (getAllElements oracle (eq.reactants ++ eq.products)) = true) :
    balanceByTrialAndError oracle eq 10000 =
      { originalEquation := eq,
        balancedReactants := eq.reactants,
        balancedProducts := eq.products,
        balancedEquation := formatEquation eq.reactants eq.products,
        method := "trial-and-error", isValid := true, error := none } := by
  unfold balanceByTrialAndError
  simp only [h, if_true]

/-- Witness for C9 at the equation parsed from "2H2O = 2H2O": both sides
already balance with all-ones coefficients, and the original coefficient 2
is returned untouched on both sides. -/
theorem C9_witness :
    balanceByTrialAndError sampleOracle
      { reactants := [{ formula := "H2O".toList, coefficient := 2 }],
        products := [{ formula := "H2O".toList, coefficient := 2 }] } 10000 =
      { originalEquation :=
          { reactants := [{ formula := "H2O".toList, coefficient := 2 }],
            products := [{ formula := "H2O".toList, coefficient := 2 }] },
        balancedReactants := [{ formula := "H2O".toList, coefficient := 2 }],
        balancedProducts := [{ formula := "H2O".toList, coefficient := 2 }],
        balancedEquation :=
          formatEquation [{ formula := "H2O".toList, coefficient := 2 }]
            [{ formula := "H2O".toList, coefficient := 2 }],
        method := "trial-and-error", isValid := true, error := none } :=
  C9_early_return_frame sampleOracle
    { reactants := [{ formula := "H2O".toList, coefficient := 2 }],
      products := [{ formula := "H2O".toList, coefficient := 2 }] }
    (by decide)

/-- C10 (counterexample): two equations identical except for the input
coefficients (H2 = O2 with coefficients 1, 1 versus 2, 3).  The algebraic
method fails on both (overdetermined system) and its failure result returns
the input compound lists, so the returned coefficient vectors are (1, 1) and
(2, 3): they do depend on the input coefficients, refuting the claim as
stated. -/
theorem C10_counterexample_coeffs_leak :
    ([{ formula := "H2".toList, coefficient := 1 }] : List EquationCompound).map (·.formula) =
      ([{ formula := "H2".toList, coefficient := 2 }] : List EquationCompound).map (·.formula) ∧
    ([{ formula := "O2".toList, coefficient := 1 }] : List EquationCompound).map (·.formula) =
      ([{ formula := "O2".toList, coefficient := 3 }] : List EquationCompound).map (·.formula) ∧
    resultCoefficients (balanceByAlgebraicMethodRobust sampleOracle
      { reactants := [{ formula := "H2".toList, coefficient := 1 }],
        products := [{ formula := "O2".toList, coefficient := 1 }] }) = [1, 1] ∧
    resultCoefficients (balanceByAlgebraicMethodRobust sampleOracle
      { reactants := [{ formula := "H2".toList, coefficient := 2 }],
        products := [{ formula := "O2".toList, coefficient := 3 }] }) = [2, 3] := by
  decide

/-- Coefficient projection of the index-reading compound rebuild: it depends
only on the start index, the coefficient list and the length of the compound
list. -/
theorem coeff_mapIdxFrom (cs : List Nat) (l : List EquationCompound) :
    ∀ i0, (mapIdxFrom (fun i c => EquationCompound.mk c.formula (cs.getD i 0)) i0 l).map
        (·.coefficient) =
      (List.range' i0 l.length).map (fun i => cs.getD i 0) := by
  induction l with
  | nil => intro i0; simp [mapIdxFrom]
  | cons a as ih =>
    intro i0
    exact congrArg (List.cons (cs.getD i0 0)) (ih (i0 + 1))

/-- C10 (amended): for two equations identical except for the coefficient
values of their compounds, the algebraic method returns the same `isValid`
flag and the same `error`; and whenever the result is valid, the returned
coefficient vectors are also identical.  (On failure results the returned
compound lists echo the input, so their coefficient vectors can differ.) -/
theorem C10_amended_formula_determined (oracle : String → Bool) (eq1 eq2 : ChemicalEquation)
    (hr : eq1.reactants.map (·.formula) = eq2.reactants.map (·.formula))
    (hp : eq1.products.map (·.formula) = eq2.products.map (·.formula)) :
    (balanceByAlgebraicMethodRobust oracle eq1).isValid =
      (balanceByAlgebraicMethodRobust oracle eq2).isValid ∧
    (balanceByAlgebraicMethodRobust oracle eq1).error =
      (balanceByAlgebraicMethodRobust oracle eq2).error ∧
    ((balanceByAlgebraicMethodRobust oracle eq1).isValid = true →
      resultCoefficients (balanceByAlgebraicMethodRobust oracle eq1) =
        resultCoefficients (balanceByAlgebraicMethodRobust oracle eq2)) := by
  have hlenr : eq1.reactants.length = eq2.reactants.length := by
    have h := congrArg List.length hr
    simpa using h
  have hlenp : eq1.products.length = eq2.products.length := by
    have h := congrArg List.length hp
    simpa using h
  have hcore : algebraicCore oracle (eq1.reactants.map (·.formula))
      (eq1.products.map (·.formula)) =
      algebraicCore oracle (eq2.reactants.map (·.formula)) (eq2.products.map (·.formula)) := by
    rw [hr, hp]
  unfold balanceByAlgebraicMethodRobust
  rw [hcore]
  rcases hout : algebraicCore oracle (eq2.reactants.map (·.formula))
      (eq2.products.map (·.formula)) with e | out
  · rw [hout]; exact ⟨rfl, rfl, fun h => nomatch h⟩
  · cases out with
    | overdet => rw [hout]; exact ⟨rfl, rfl, fun h => nomatch h⟩
    | invalidSol => rw [hout]; exact ⟨rfl, rfl, fun h => nomatch h⟩
    | success coeffs =>
      rw [hout]
      refine ⟨rfl, rfl, fun _ => ?_⟩
      dsimp only [resultCoefficients]
      simp only [List.map_append]
      unfold jsMapIdx
      rw [coeff_mapIdxFrom, coeff_mapIdxFrom, coeff_mapIdxFrom, coeff_mapIdxFrom,
        hlenr, hlenp]

/-- Witness for C10 (amended) at two concrete equations differing only in
their coefficients: isValid and error agree. -/
theorem C10_witness :
    (balanceByAlgebraicMethodRobust sampleOracle
      { reactants := [{ formula := "H2".toList, coefficient := 1 }],
        products := [{ formula := "O2".toList, coefficient := 1 }] }).isValid =
      (balanceByAlgebraicMethodRobust sampleOracle
        { reactants := [{ formula := "H2".toList, coefficient := 5 }],
          products := [{ formula := "O2".toList, coefficient := 7 }] }).isValid ∧
    (balanceByAlgebraicMethodRobust sampleOracle
      { reactants := [{ formula := "H2".toList, coefficient := 1 }],
        products := [{ formula := "O2".toList, coefficient := 1 }] }).error =
      (balanceByAlgebraicMethodRobust sampleOracle
        { reactants := [{ formula := "H2".toList, coefficient := 5 }],
          products := [{ formula := "O2".toList, coefficient := 7 }] }).error ∧
    ((balanceByAlgebraicMethodRobust sampleOracle
      { reactants := [{ formula := "H2".toList, coefficient := 1 }],
        products := [{ formula := "O2".toList, coefficient := 1 }] }).isValid = true →
      resultCoefficients (balanceByAlgebraicMethodRobust sampleOracle
        { reactants := [{ formula := "H2".toList, coefficient := 1 }],
          products := [{ formula := "O2".toList, coefficient := 1 }] }) =
        resultCoefficients (balanceByAlgebraicMethodRobust sampleOracle
          { reactants := [{ formula := "H2".toList, coefficient := 5 }],
            products := [{ formula := "O2".toList, coefficient := 7 }] })) :=
  C10_amended_formula_determined sampleOracle
    { reactants := [{ formula := "H2".toList, coefficient := 1 }],
      products := [{ formula := "O2".toList, coefficient := 1 }] }
    { reactants := [{ formula := "H2".toList, coefficient := 5 }],
      products := [{ formula := "O2".toList, coefficient := 7 }] }
    rfl rfl

/-! ### C8 helper lemmas: every invalid result carries an error -/

theorem runFormulaParse_structured (oracle : String → Bool) (ts : List Token) :
    (runFormulaParse oracle ts).isValid = true ∨ (runFormulaParse oracle ts).error ≠ none := by
  unfold runFormulaParse
  rcases h : parseGroup oracle (ts.length + 1) [] ts with e | p
  · simp
  · rcases p with ⟨m, rest⟩
    by_cases hr : rest.isEmpty <;> simp [hr]

theorem parseChemicalFormula_structured (oracle : String → Bool) (f : List Char) :
    (parseChemicalFormula oracle f).isValid = true ∨
    (parseChemicalFormula oracle f).error ≠ none := by
  unfold parseChemicalFormula
  by_cases h1 : jsTrim f = []
  · simp [h1]
  · simp only [h1, if_false]
    by_cases h2 : (jsTrim f).length > 50
    · simp [h2]
    · simp only [h2, if_false]
      by_cases h3 : (tokenize (jsTrim f)).isEmpty
      · simp [h3]
      · simp only [h3, if_false]
        by_cases h4 : (runFormulaParse oracle (tokenize (jsTrim f))).isValid
        · simp only [h4, if_true]
          by_cases h5 :
              ((runFormulaParse oracle (tokenize (jsTrim f))).elements.map
                (fun p => ParsedElement.mk p.1 p.2)).foldl (fun s e => s + e.count) 0 > 1000
          · simp [h5]
          · simp [h5]
        · simp only [h4, Bool.false_eq_true, if_false]
          rcases runFormulaParse_structured oracle (tokenize (jsTrim f)) with h | h
          · rw [h] at h4; exact absurd rfl h4
          · exact Or.inr h

theorem parseChemicalEquation_structured (oracle : String → Bool) (eqn : List Char) :
    (parseChemicalEquation oracle eqn).isValid = true ∨
    (parseChemicalEquation oracle eqn).error ≠ none := by
  unfold parseChemicalEquation
  by_cases hv : (validateChemicalEquation oracle eqn).isValid
  · simp only [hv, Bool.not_true, Bool.false_eq_true, if_false]
    rcases h1 : strIndexOf eqn ['→'] with _ | i
    · rcases h2 : strIndexOf eqn ['-', '>'] with _ | i
      · rcases h3 : strIndexOf eqn ['='] with _ | i
        · simp
        · rcases h4 : parseCompoundsList oracle (jsTrim (eqn.take i)) "reactants" with e | r
          · simp [h4]
          · rcases h5 : parseCompoundsList oracle (jsTrim (eqn.drop (i + 1))) "products"
              with e | p <;> simp [h4, h5]
      · rcases h4 : parseCompoundsList oracle (jsTrim (eqn.take i)) "reactants" with e | r
        · simp [h4]
        · rcases h5 : parseCompoundsList oracle (jsTrim (eqn.drop (i + 2))) "products"
            with e | p <;> simp [h4, h5]
    · rcases h4 : parseCompoundsList oracle (jsTrim (eqn.take i)) "reactants" with e | r
      · simp [h4]
      · rcases h5 : parseCompoundsList oracle (jsTrim (eqn.drop (i + 1))) "products"
          with e | p <;> simp [h4, h5]
  · simp [hv]

theorem balanceByTrialAndError_structured (oracle : String → Bool) (eq : ChemicalEquation)
    (maxIterations : Nat) :
    (balanceByTrialAndError oracle eq maxIterations).isValid = true ∨
    (balanceByTrialAndError oracle eq maxIterations).error ≠ none := by
  unfold balanceByTrialAndError
  by_cases h : checkBalance oracle eq.reactants eq.products
      (List.replicate eq.reactants.length 1) (List.replicate eq.products.length 1)
      (getAllElements oracle (eq.reactants ++ eq.products))
  · simp [h]
  · simp only [h, Bool.false_eq_true, if_false]
    rcases taeLoop oracle eq.reactants eq.products
        (getAllElements oracle (eq.reactants ++ eq.products)) maxIterations
        (List.replicate eq.reactants.length 1) (List.replicate eq.products.length 1) 0
      with ⟨rc, pc, it⟩ | it <;> simp

theorem balanceByAlgebraicMethodRobust_structured (oracle : String → Bool)
    (eq : ChemicalEquation) :
    (balanceByAlgebraicMethodRobust oracle eq).isValid = true ∨
    (balanceByAlgebraicMethodRobust oracle eq).error ≠ none := by
  unfold balanceByAlgebraicMethodRobust
  rcases hc : algebraicCore oracle (eq.reactants.map (·.formula)) (eq.products.map (·.formula))
    with e | out
  · simp [hc, createErrorResult]
  · cases out <;> simp [hc, createErrorResult]

/-- C8: the two public entry points always return a structured result (in
this embedding they are total functions into the result records, with every
internal raise modelled as an `Except.error` caught at `runFormulaParse`
respectively at the catch of `balanceByAlgebraicMethodRobust`): a result
that is not valid always carries an error.  In particular the malformed
formula "H2(SO4" (unmatched parenthesis) yields an invalid result with the
syntax-error message rather than a crash. -/
theorem C8_structured_results_no_throw :
    (∀ (oracle : String → Bool) (f : List Char),
      (parseChemicalFormula oracle f).isValid = true ∨
      (parseChemicalFormula oracle f).error ≠ none) ∧
    (∀ (oracle : String → Bool) (input : BalanceInput),
      (balanceChemicalEquation oracle input).isValid = true ∨
      (balanceChemicalEquation oracle input).error ≠ none) ∧
    (parseChemicalFormula sampleOracle "H2(SO4".toList).isValid = false ∧
    (parseChemicalFormula sampleOracle "H2(SO4".toList).error = some MSG_INVALID_SYNTAX := by
  refine ⟨parseChemicalFormula_structured, ?_, by decide, by decide⟩
  intro oracle input
  unfold balanceChemicalEquation
  by_cases hp : (parseChemicalEquation oracle input.equation).isValid
  · simp only [hp, Bool.not_true, Bool.false_eq_true, if_false]
    by_cases h1 : (input.method.getD "trial-and-error") == "trial-and-error"
    · simp only [h1, if_true]
      exact balanceByTrialAndError_structured oracle _ 10000
    · simp only [h1, Bool.false_eq_true, if_false]
      by_cases h2 : (input.method.getD "trial-and-error") == "algebraic"
      · simp only [h2, if_true]
        exact balanceByAlgebraicMethodRobust_structured oracle _
      · simp [h2]
  · simp only [hp, Bool.not_false, if_true]
    rcases parseChemicalEquation_structured oracle input.equation with h | h
    · rw [h] at hp; exact absurd rfl hp
    · exact Or.inr h

/-! ### C5 development, part 1: character classes and tokenizer steps

The goal (claim C5) is that `parseChemicalFormula` succeeds on
`normalizeFormula f` with the same element mapping whenever it succeeds on
`f`.  The crux is that deleting whitespace from a formula whose token stream
parses leaves the token stream unchanged. -/

theorem notUpper_of_lower {c : Char} (h : isLowerJS c = true) : isUpperJS c = false := by
  simp [isLowerJS] at h; simp [isUpperJS]; omega

theorem notDigit_of_lower {c : Char} (h : isLowerJS c = true) : isDigitJS c = false := by
  simp [isLowerJS] at h; simp [isDigitJS]; omega

theorem notSpace_of_lower {c : Char} (h : isLowerJS c = true) : isSpaceJS c = false := by
  simp [isLowerJS] at h; simp [isSpaceJS]; omega

theorem ne_open_of_lower {c : Char} (h : isLowerJS c = true) : c ≠ '(' := by
  intro hc; subst hc; exact absurd h (by decide)

theorem ne_close_of_lower {c : Char} (h : isLowerJS c = true) : c ≠ ')' := by
  intro hc; subst hc; exact absurd h (by decide)

theorem notUpper_of_digit {c : Char} (h : isDigitJS c = true) : isUpperJS c = false := by
  simp [isDigitJS] at h; simp [isUpperJS]; omega

theorem notSpace_of_digit {c : Char} (h : isDigitJS c = true) : isSpaceJS c = false := by
  simp [isDigitJS] at h; simp [isSpaceJS]; omega

theorem notLower_of_digit {c : Char} (h : isDigitJS c = true) : isLowerJS c = false := by
  simp [isDigitJS] at h; simp [isLowerJS]; omega

theorem notUpper_of_space {c : Char} (h : isSpaceJS c = true) : isUpperJS c = false := by
  simp [isSpaceJS] at h; simp [isUpperJS]; omega

theorem notDigit_of_space {c : Char} (h : isSpaceJS c = true) : isDigitJS c = false := by
  simp [isSpaceJS] at h; simp [isDigitJS]; omega

theorem notLower_of_space {c : Char} (h : isSpaceJS c = true) : isLowerJS c = false := by
  simp [isSpaceJS] at h; simp [isLowerJS]; omega

theorem ne_open_of_space {c : Char} (h : isSpaceJS c = true) : c ≠ '(' := by
  intro hc; subst hc; exact absurd h (by decide)

theorem ne_close_of_space {c : Char} (h : isSpaceJS c = true) : c ≠ ')' := by
  intro hc; subst hc; exact absurd h (by decide)

theorem notLower_of_upper {c : Char} (h : isUpperJS c = true) : isLowerJS c = false := by
  simp [isUpperJS] at h; simp [isLowerJS]; omega

/-- Head-character condition used through the tokenizer lemmas. -/
def headNotLower : List Char → Prop
  | c :: _ => isLowerJS c = false
  | [] => True

/-! Tokenizer evaluation lemmas, one per branch of the scan. -/

theorem tokenizeAux_space (f : Nat) (c : Char) (rest : List Char) (h : isSpaceJS c = true) :
    tokenizeAux (f + 1) (c :: rest) = tokenizeAux f rest := by
  simp [tokenizeAux, notUpper_of_space h, notDigit_of_space h,
    ne_open_of_space h, ne_close_of_space h, h]

theorem tokenizeAux_lower_none (f : Nat) (c : Char) (rest : List Char)
    (h : isLowerJS c = true) : tokenizeAux f (c :: rest) = none := by
  cases f with
  | zero => rfl
  | succ f =>
    simp [tokenizeAux, notUpper_of_lower h, notDigit_of_lower h,
      ne_open_of_lower h, ne_close_of_lower h, notSpace_of_lower h]

theorem tokenizeAux_upper_pair (f : Nat) (c d : Char) (rest : List Char)
    (hc : isUpperJS c = true) (hd : isLowerJS d = true) :
    tokenizeAux (f + 1) (c :: d :: rest) =
      (tokenizeAux f rest).map (Token.element (String.mk [c, d]) :: ·) := by
  simp [tokenizeAux, hc, hd]

theorem tokenizeAux_upper_single (f : Nat) (c d : Char) (rest : List Char)
    (hc : isUpperJS c = true) (hd : isLowerJS d = false) :
    tokenizeAux (f + 1) (c :: d :: rest) =
      (tokenizeAux f (d :: rest)).map (Token.element (String.mk [c]) :: ·) := by
  simp [tokenizeAux, hc, hd]

theorem tokenizeAux_upper_nil (f : Nat) (c : Char) (hc : isUpperJS c = true) :
    tokenizeAux (f + 1) [c] = some [Token.element (String.mk [c])] := by
  simp [tokenizeAux, hc]

theorem tokenizeAux_digit (f : Nat) (c : Char) (rest : List Char) (hc : isDigitJS c = true) :
    tokenizeAux (f + 1) (c :: rest) =
      (tokenizeAux f (rest.dropWhile isDigitJS)).map
        (Token.number (c :: rest.takeWhile isDigitJS) :: ·) := by
  simp [tokenizeAux, notUpper_of_digit hc, hc]

theorem tokenizeAux_open (f : Nat) (rest : List Char) :
    tokenizeAux (f + 1) ('(' :: rest) = (tokenizeAux f rest).map (Token.openParen :: ·) := by
  simp +decide [tokenizeAux]

theorem tokenizeAux_close (f : Nat) (rest : List Char) :
    tokenizeAux (f + 1) (')' :: rest) = (tokenizeAux f rest).map (Token.closeParen :: ·) := by
  simp +decide [tokenizeAux]

/-! Whitespace-removal basics. -/

theorem stripWs_cons_space {c : Char} (rest : List Char) (h : isSpaceJS c = true) :
    stripWs (c :: rest) = stripWs rest := by
  simp [stripWs, h]

theorem stripWs_cons_keep {c : Char} (rest : List Char) (h : isSpaceJS c = false) :
    stripWs (c :: rest) = c :: stripWs rest := by
  simp [stripWs, h]

theorem stripWs_head (s : List Char) :
    (stripWs s).head? = (s.dropWhile isSpaceJS).head? := by
  induction s with
  | nil => rfl
  | cons c rest ih =>
    by_cases h : isSpaceJS c
    · rw [stripWs_cons_space rest h, List.dropWhile_cons_of_pos h]
      exact ih
    · rw [stripWs_cons_keep rest (by simpa using h),
        List.dropWhile_cons_of_neg (by simpa using h)]
      rfl

/-! ### C5 development, part 2: facts about successfully tokenized inputs -/

/-- A character the tokenizer accepts without consuming it as part of a
token is whitespace; every other accepted character is a word character. -/
theorem tokenizeAux_wordchars :
    ∀ (n : Nat) (s : List Char) (f : Nat) (ts : List Token), s.length ≤ n →
      tokenizeAux f s = some ts → ∀ c ∈ s, isSpaceJS c = true ∨ isWordCharJS c = true := by
  intro n
  induction n with
  | zero =>
    intro s f ts hlen ht c hc
    rw [List.eq_nil_of_length_eq_zero (Nat.le_zero.mp hlen)] at hc
    exact absurd hc (List.not_mem_nil c)
  | succ n ih =>
    intro s f ts hlen ht x hx
    cases s with
    | nil => exact absurd hx (List.not_mem_nil x)
    | cons c rest =>
      cases f with
      | zero => exact absurd ht (by simp [tokenizeAux])
      | succ f =>
        have hlen' : rest.length ≤ n := by simpa using hlen
        by_cases hu : isUpperJS c = true
        · cases rest with
          | nil =>
            rcases List.mem_cons.mp hx with rfl | hx'
            · exact Or.inr (by simp [isWordCharJS, hu])
            · exact absurd hx' (List.not_mem_nil x)
          | cons d rest' =>
            by_cases hd : isLowerJS d = true
            · rw [tokenizeAux_upper_pair f c d rest' hu hd] at ht
              rcases Option.map_eq_some'.mp ht with ⟨ts', hts', _⟩
              rcases List.mem_cons.mp hx with rfl | hx'
              · exact Or.inr (by simp [isWordCharJS, hu])
              · rcases List.mem_cons.mp hx' with rfl | hx''
                · exact Or.inr (by simp [isWordCharJS, hd])
                · exact ih rest' f ts' (by simp at hlen'; omega) hts' x hx''
            · rw [tokenizeAux_upper_single f c d rest' hu (by simpa using hd)] at ht
              rcases Option.map_eq_some'.mp ht with ⟨ts', hts', _⟩
              rcases List.mem_cons.mp hx with rfl | hx'
              · exact Or.inr (by simp [isWordCharJS, hu])
              · exact ih (d :: rest') f ts' hlen' hts' x hx'
        · by_cases hdg : isDigitJS c = true
          · rw [tokenizeAux_digit f c rest hdg] at ht
            rcases Option.map_eq_some'.mp ht with ⟨ts', hts', _⟩
            rcases List.mem_cons.mp hx with rfl | hx'
            · exact Or.inr (by simp [isWordCharJS, hdg])
            · rw [← List.takeWhile_append_dropWhile isDigitJS rest] at hx'
              rcases List.mem_append.mp hx' with hx'' | hx''
              · exact Or.inr (by simp [isWordCharJS, List.mem_takeWhile_imp hx''])
              · refine ih (rest.dropWhile isDigitJS) f ts' ?_ hts' x hx''
                calc (rest.dropWhile isDigitJS).length ≤ rest.length :=
                      (List.dropWhile_sublist isDigitJS).length_le
                  _ ≤ n := hlen'
          · by_cases hop : c = '('
            · subst hop
              rw [tokenizeAux_open f rest] at ht
              rcases Option.map_eq_some'.mp ht with ⟨ts', hts', _⟩
              rcases List.mem_cons.mp hx with rfl | hx'
              · exact Or.inr (by decide)
              · exact ih rest f ts' hlen' hts' x hx'
            · by_cases hcl : c = ')'
              · subst hcl
                rw [tokenizeAux_close f rest] at ht
                rcases Option.map_eq_some'.mp ht with ⟨ts', hts', _⟩
                rcases List.mem_cons.mp hx with rfl | hx'
                · exact Or.inr (by decide)
                · exact ih rest f ts' hlen' hts' x hx'
              · by_cases hsp : isSpaceJS c = true
                · rw [tokenizeAux_space f c rest hsp] at ht
                  rcases List.mem_cons.mp hx with rfl | hx'
                  · exact Or.inl hsp
                  · exact ih rest f ts hlen' ht x hx'
                · exact absurd ht (by
                    simp [tokenizeAux, hu, hdg, hop, hcl, hsp])

/-- If the input tokenizes and does not itself start with a lowercase
letter, its first non-whitespace character is not lowercase either (a
lowercase letter reachable after whitespace would make the scan fail). -/
theorem tokenizeAux_fns_not_lower :
    ∀ (n : Nat) (s : List Char) (f : Nat) (ts : List Token), s.length ≤ n →
      tokenizeAux f s = some ts → headNotLower s →
      headNotLower (s.dropWhile isSpaceJS) := by
  intro n
  induction n with
  | zero =>
    intro s f ts hlen ht hh
    rw [List.eq_nil_of_length_eq_zero (Nat.le_zero.mp hlen)]
    trivial
  | succ n ih =>
    intro s f ts hlen ht hh
    cases s with
    | nil => trivial
    | cons c rest =>
      have hlen' : rest.length ≤ n := by simpa using hlen
      by_cases hsp : isSpaceJS c = true
      · rw [List.dropWhile_cons_of_pos hsp]
        cases f with
        | zero => exact absurd ht (by simp [tokenizeAux])
        | succ f =>
          rw [tokenizeAux_space f c rest hsp] at ht
          refine ih rest f ts hlen' ht ?_
          cases rest with
          | nil => trivial
          | cons d r2 =>
            by_cases hd : isLowerJS d = true
            · rw [tokenizeAux_lower_none f d r2 hd] at ht
              exact absurd ht (by simp)
            · simpa [headNotLower] using hd
      · rw [List.dropWhile_cons_of_neg (by simpa using hsp)]
        exact hh

/-- If the input tokenizes and its first non-whitespace character is a
digit, the token stream starts with a number token. -/
theorem tokenizeAux_fns_digit :
    ∀ (n : Nat) (s : List Char) (f : Nat) (ts : List Token) (d : Char), s.length ≤ n →
      tokenizeAux f s = some ts → (s.dropWhile isSpaceJS).head? = some d →
      isDigitJS d = true → ∃ ds ts', ts = Token.number ds :: ts' := by
  intro n
  induction n with
  | zero =>
    intro s f ts d hlen ht hhead hd
    rw [List.eq_nil_of_length_eq_zero (Nat.le_zero.mp hlen)] at hhead
    exact absurd hhead (by simp)
  | succ n ih =>
    intro s f ts d hlen ht hhead hd
    cases s with
    | nil => exact absurd hhead (by simp)
    | cons c rest =>
      have hlen' : rest.length ≤ n := by simpa using hlen
      cases f with
      | zero => exact absurd ht (by simp [tokenizeAux])
      | succ f =>
        by_cases hsp : isSpaceJS c = true
        · rw [List.dropWhile_cons_of_pos hsp] at hhead
          rw [tokenizeAux_space f c rest hsp] at ht
          exact ih rest f ts d hlen' ht hhead hd
        · rw [List.dropWhile_cons_of_neg (by simpa using hsp)] at hhead
          have hcd : c = d := by simpa using hhead
          subst hcd
          rw [tokenizeAux_digit f c rest hd] at ht
          rcases Option.map_eq_some'.mp ht with ⟨ts', _, hts⟩
          exact ⟨c :: rest.takeWhile isDigitJS, ts', hts.symm⟩

/-- An all-whitespace input tokenizes to the empty token stream. -/
theorem tokenizeAux_all_space :
    ∀ (n : Nat) (s : List Char) (f : Nat), s.length ≤ n → s.length < f →
      (∀ c ∈ s, isSpaceJS c = true) → tokenizeAux f s = some [] := by
  intro n
  induction n with
  | zero =>
    intro s f hlen hf _
    rw [List.eq_nil_of_length_eq_zero (Nat.le_zero.mp hlen)]
    rw [List.eq_nil_of_length_eq_zero (Nat.le_zero.mp hlen)] at hf
    cases f with
    | zero => exact absurd hf (by simp)
    | succ f => rfl
  | succ n ih =>
    intro s f hlen hf hall
    cases s with
    | nil =>
      cases f with
      | zero => exact absurd hf (by simp)
      | succ f => rfl
    | cons c rest =>
      cases f with
      | zero => exact absurd hf (by omega)
      | succ f =>
        rw [tokenizeAux_space f c rest (hall c (List.mem_cons_self c rest))]
        refine ih rest f (by simpa using hlen) (by simp at hf; omega) ?_
        intro x hx
        exact hall x (List.mem_cons_of_mem c hx)

/-! ### C5 development, part 3: whitespace removal preserves the tokens -/

theorem notSpace_of_upper {c : Char} (h : isUpperJS c = true) : isSpaceJS c = false := by
  simp [isUpperJS] at h; simp [isSpaceJS]; omega

/-- No two adjacent number tokens (deleting whitespace merges adjacent digit
runs, so only streams without adjacent number tokens are preserved; streams
the parser accepts never have them). -/
def noAdjNumB : List Token → Bool
  | Token.number _ :: Token.number _ :: _ => false
  | _ :: rest => noAdjNumB rest
  | [] => true

/-- The token list does not start with a number token. -/
def headNotNumber : List Token → Prop
  | Token.number _ :: _ => False
  | _ => True

theorem noAdjNumB_cons_elem (sym : String) (l : List Token) :
    noAdjNumB (Token.element sym :: l) = noAdjNumB l := by
  cases l with
  | nil => rfl
  | cons t r => cases t <;> rfl

theorem noAdjNumB_cons_open (l : List Token) :
    noAdjNumB (Token.openParen :: l) = noAdjNumB l := by
  cases l with
  | nil => rfl
  | cons t r => cases t <;> rfl

theorem noAdjNumB_cons_close (l : List Token) :
    noAdjNumB (Token.closeParen :: l) = noAdjNumB l := by
  cases l with
  | nil => rfl
  | cons t r => cases t <;> rfl

theorem noAdjNumB_num (ds : List Char) (l : List Token)
    (h : noAdjNumB (Token.number ds :: l) = true) :
    noAdjNumB l = true ∧ headNotNumber l := by
  cases l with
  | nil => exact ⟨rfl, trivial⟩
  | cons t r =>
    cases t with
    | number ds2 => exact absurd h (by simp [noAdjNumB])
    | element sym => exact ⟨h, trivial⟩
    | openParen => exact ⟨h, trivial⟩
    | closeParen => exact ⟨h, trivial⟩

theorem noAdjNumB_num_intro (ds : List Char) (l : List Token)
    (h : noAdjNumB l = true) (hh : headNotNumber l) :
    noAdjNumB (Token.number ds :: l) = true := by
  cases l with
  | nil => rfl
  | cons t r =>
    cases t with
    | number ds2 => exact absurd hh (by simp [headNotNumber])
    | element sym => exact h
    | openParen => exact h
    | closeParen => exact h

theorem head_dropWhile_false {α : Type} (p : α → Bool) :
    ∀ (l : List α) (x : α), (l.dropWhile p).head? = some x → p x = false := by
  intro l
  induction l with
  | nil => intro x hx; exact absurd hx (by simp)
  | cons a as ih =>
    intro x hx
    by_cases ha : p a = true
    · rw [List.dropWhile_cons_of_pos ha] at hx
      exact ih x hx
    · rw [List.dropWhile_cons_of_neg (by simpa using ha)] at hx
      have : a = x := by simpa using hx
      subst this
      simpa using ha

theorem stripWs_append (a b : List Char) : stripWs (a ++ b) = stripWs a ++ stripWs b :=
  List.filter_append a b

theorem stripWs_all_space {l : List Char} (h : stripWs l = []) :
    ∀ c ∈ l, isSpaceJS c = true := by
  intro c hc
  have := List.filter_eq_nil_iff.mp h c hc
  simpa using this

theorem stripWs_eq_self {l : List Char} (h : ∀ c ∈ l, isSpaceJS c = false) :
    stripWs l = l := by
  apply List.filter_eq_self.mpr
  intro a ha
  simpa using h a ha

theorem takeWhile_append_of_all {α : Type} (p : α → Bool) :
    ∀ (a b : List α), (∀ x ∈ a, p x = true) →
      (a ++ b).takeWhile p = a ++ b.takeWhile p := by
  intro a
  induction a with
  | nil => intro b _; rfl
  | cons x xs ih =>
    intro b h
    have hx : p x = true := h x (List.mem_cons_self x xs)
    simp only [List.cons_append, List.takeWhile_cons_of_pos hx]
    rw [ih b (fun y hy => h y (List.mem_cons_of_mem x hy))]

theorem dropWhile_append_of_all {α : Type} (p : α → Bool) :
    ∀ (a b : List α), (∀ x ∈ a, p x = true) →
      (a ++ b).dropWhile p = b.dropWhile p := by
  intro a
  induction a with
  | nil => intro b _; rfl
  | cons x xs ih =>
    intro b h
    have hx : p x = true := h x (List.mem_cons_self x xs)
    simp only [List.cons_append, List.dropWhile_cons_of_pos hx]
    exact ih b (fun y hy => h y (List.mem_cons_of_mem x hy))

theorem takeWhile_nil_of_head {α : Type} (p : α → Bool) (l : List α)
    (h : ∀ e, l.head? = some e → p e = false) : l.takeWhile p = [] := by
  cases l with
  | nil => rfl
  | cons e es =>
    have : p e = false := h e rfl
    simp [List.takeWhile_cons_of_neg, this]

theorem dropWhile_self_of_head {α : Type} (p : α → Bool) (l : List α)
    (h : ∀ e, l.head? = some e → p e = false) : l.dropWhile p = l := by
  cases l with
  | nil => rfl
  | cons e es =>
    have : p e = false := h e rfl
    rw [List.dropWhile_cons_of_neg (by simp [this])]

/-- Deleting whitespace from an input that tokenizes to a stream without
adjacent number tokens leaves the token stream unchanged. -/
theorem tokenizeAux_stripWs :
    ∀ (n : Nat) (s : List Char) (f1 f2 : Nat) (ts : List Token),
      s.length ≤ n → s.length < f1 → (stripWs s).length < f2 →
      tokenizeAux f1 s = some ts → noAdjNumB ts = true →
      tokenizeAux f2 (stripWs s) = some ts := by
  intro n
  induction n with
  | zero =>
    intro s f1 f2 ts hlen hf1 hf2 ht _
    have hs : s = [] := List.eq_nil_of_length_eq_zero (Nat.le_zero.mp hlen)
    subst hs
    cases f1 with
    | zero => exact absurd hf1 (by simp)
    | succ f1 =>
      cases f2 with
      | zero => exact absurd hf2 (by simp [stripWs])
      | succ f2 =>
        simp only [tokenizeAux] at ht
        simpa [stripWs, tokenizeAux] using ht
  | succ n ih =>
    intro s f1 f2 ts hlen hf1 hf2 ht hadj
    cases s with
    | nil =>
      cases f1 with
      | zero => exact absurd hf1 (by simp)
      | succ f1 =>
        cases f2 with
        | zero => exact absurd hf2 (by simp [stripWs])
        | succ f2 =>
          simp only [tokenizeAux] at ht
          simpa [stripWs, tokenizeAux] using ht
    | cons c rest =>
      have hlenr : rest.length ≤ n := by simpa using hlen
      cases f1 with
      | zero => exact absurd hf1 (by simp)
      | succ f1 =>
        by_cases hu : isUpperJS c = true
        · have hcsp : isSpaceJS c = false := notSpace_of_upper hu
          cases rest with
          | nil =>
            rw [tokenizeAux_upper_nil f1 c hu] at ht
            have hts : ts = [Token.element (String.mk [c])] := by
              have := ht.symm
              simpa using this
            subst hts
            have hstrip : stripWs [c] = [c] := stripWs_cons_keep [] hcsp
            rw [hstrip] at hf2 ⊢
            cases f2 with
            | zero => exact absurd hf2 (by simp)
            | succ f2 => exact tokenizeAux_upper_nil f2 c hu
          | cons d rest' =>
            by_cases hd : isLowerJS d = true
            · rw [tokenizeAux_upper_pair f1 c d rest' hu hd] at ht
              rcases Option.map_eq_some'.mp ht with ⟨ts1, hts1, hts⟩
              subst hts
              have hdsp : isSpaceJS d = false := notSpace_of_lower hd
              have hstrip : stripWs (c :: d :: rest') = c :: d :: stripWs rest' := by
                rw [stripWs_cons_keep _ hcsp, stripWs_cons_keep _ hdsp]
              rw [hstrip] at hf2 ⊢
              cases f2 with
              | zero => exact absurd hf2 (by simp)
              | succ f2 =>
                rw [tokenizeAux_upper_pair f2 c d (stripWs rest') hu hd]
                rw [noAdjNumB_cons_elem] at hadj
                have hrec : tokenizeAux f2 (stripWs rest') = some ts1 := by
                  refine ih rest' f1 f2 ts1 ?_ ?_ ?_ hts1 hadj
                  · simp at hlen ⊢; omega
                  · simp at hf1 ⊢; omega
                  · simp at hf2 ⊢; omega
                rw [hrec]; rfl
            · have hd' : isLowerJS d = false := by simpa using hd
              rw [tokenizeAux_upper_single f1 c d rest' hu hd'] at ht
              rcases Option.map_eq_some'.mp ht with ⟨ts1, hts1, hts⟩
              subst hts
              have hstrip : stripWs (c :: d :: rest') = c :: stripWs (d :: rest') :=
                stripWs_cons_keep _ hcsp
              rw [hstrip] at hf2 ⊢
              rw [noAdjNumB_cons_elem] at hadj
              have hnl : headNotLower ((d :: rest').dropWhile isSpaceJS) := by
                refine tokenizeAux_fns_not_lower n (d :: rest') f1 ts1 ?_ hts1 ?_
                · simpa using hlen
                · exact hd'
              cases hX : stripWs (d :: rest') with
              | nil =>
                have hall := stripWs_all_space hX
                have h0 : tokenizeAux f1 (d :: rest') = some [] := by
                  refine tokenizeAux_all_space n (d :: rest') f1 ?_ ?_ hall
                  · simpa using hlen
                  · simp at hf1 ⊢; omega
                have hts1nil : ts1 = [] := by
                  rw [hts1] at h0
                  simpa using h0
                subst hts1nil
                rw [hX] at hf2
                cases f2 with
                | zero => exact absurd hf2 (by simp)
                | succ f2 => exact tokenizeAux_upper_nil f2 c hu
              | cons e es =>
                have he : isLowerJS e = false := by
                  have h1 : (stripWs (d :: rest')).head? = some e := by rw [hX]; rfl
                  rw [stripWs_head] at h1
                  cases hdw : (d :: rest').dropWhile isSpaceJS with
                  | nil => rw [hdw] at h1; exact absurd h1 (by simp)
                  | cons e' tl =>
                    rw [hdw] at h1 hnl
                    have : e' = e := by simpa using h1
                    subst this
                    exact hnl
                rw [hX] at hf2
                cases f2 with
                | zero => exact absurd hf2 (by simp)
                | succ f2 =>
                  rw [tokenizeAux_upper_single f2 c e es hu he]
                  have hrec : tokenizeAux f2 (e :: es) = some ts1 := by
                    rw [← hX]
                    refine ih (d :: rest') f1 f2 ts1 ?_ ?_ ?_ hts1 hadj
                    · simpa using hlen
                    · simp at hf1 ⊢; omega
                    · rw [hX]; simp at hf2 ⊢; omega
                  rw [hrec]; rfl
        · by_cases hdg : isDigitJS c = true
          · rw [tokenizeAux_digit f1 c rest hdg] at ht
            rcases Option.map_eq_some'.mp ht with ⟨ts1, hts1, hts⟩
            subst hts
            have hcsp : isSpaceJS c = false := notSpace_of_digit hdg
            have htwdig : ∀ x ∈ rest.takeWhile isDigitJS, isDigitJS x = true :=
              fun x hx => List.mem_takeWhile_imp hx
            have htwsp : ∀ x ∈ rest.takeWhile isDigitJS, isSpaceJS x = false :=
              fun x hx => notSpace_of_digit (htwdig x hx)
            have hsplit : stripWs (c :: rest) =
                c :: (rest.takeWhile isDigitJS ++ stripWs (rest.dropWhile isDigitJS)) := by
              rw [stripWs_cons_keep _ hcsp]
              congr 1
              conv_lhs => rw [← List.takeWhile_append_dropWhile isDigitJS rest]
              rw [stripWs_append, stripWs_eq_self htwsp]
            rcases noAdjNumB_num _ _ hadj with ⟨hadj1, hheadnn⟩
            have hX : ∀ e, (stripWs (rest.dropWhile isDigitJS)).head? = some e →
                isDigitJS e = false := by
              intro e he
              by_contra hne
              have hed : isDigitJS e = true := by simpa using hne
              rw [stripWs_head] at he
              rcases tokenizeAux_fns_digit n (rest.dropWhile isDigitJS) f1 ts1 e
                  (le_trans (List.dropWhile_sublist isDigitJS).length_le hlenr)
                  hts1 he hed with ⟨ds, ts2, hts2⟩
              rw [hts2] at hheadnn
              exact hheadnn
            rw [hsplit] at hf2 ⊢
            cases f2 with
            | zero => exact absurd hf2 (by simp)
            | succ f2 =>
              rw [tokenizeAux_digit f2 c _ hdg]
              have e1 : (rest.takeWhile isDigitJS ++
                  stripWs (rest.dropWhile isDigitJS)).takeWhile isDigitJS =
                  rest.takeWhile isDigitJS := by
                rw [takeWhile_append_of_all isDigitJS _ _ htwdig,
                  takeWhile_nil_of_head isDigitJS _ hX, List.append_nil]
              have e2 : (rest.takeWhile isDigitJS ++
                  stripWs (rest.dropWhile isDigitJS)).dropWhile isDigitJS =
                  stripWs (rest.dropWhile isDigitJS) := by
                rw [dropWhile_append_of_all isDigitJS _ _ htwdig,
                  dropWhile_self_of_head isDigitJS _ hX]
              rw [e1, e2]
              have hrec : tokenizeAux f2 (stripWs (rest.dropWhile isDigitJS)) = some ts1 := by
                refine ih (rest.dropWhile isDigitJS) f1 f2 ts1 ?_ ?_ ?_ hts1 hadj1
                · calc (rest.dropWhile isDigitJS).length ≤ rest.length :=
                      (List.dropWhile_sublist isDigitJS).length_le
                    _ ≤ n := hlenr
                · have hle : (rest.dropWhile isDigitJS).length ≤ rest.length :=
                    (List.dropWhile_sublist isDigitJS).length_le
                  simp at hf1; omega
                · simp at hf2; omega
              rw [hrec]; rfl
          · by_cases hop : c = '('
            · subst hop
              rw [tokenizeAux_open f1 rest] at ht
              rcases Option.map_eq_some'.mp ht with ⟨ts1, hts1, hts⟩
              subst hts
              have hstrip : stripWs ('(' :: rest) = '(' :: stripWs rest :=
                stripWs_cons_keep _ (by decide)
              rw [hstrip] at hf2 ⊢
              rw [noAdjNumB_cons_open] at hadj
              cases f2 with
              | zero => exact absurd hf2 (by simp)
              | succ f2 =>
                rw [tokenizeAux_open f2 (stripWs rest)]
                have hrec : tokenizeAux f2 (stripWs rest) = some ts1 := by
                  refine ih rest f1 f2 ts1 hlenr ?_ ?_ hts1 hadj
                  · simp at hf1; omega
                  · simp at hf2; omega
                rw [hrec]; rfl
            · by_cases hcl : c = ')'
              · subst hcl
                rw [tokenizeAux_close f1 rest] at ht
                rcases Option.map_eq_some'.mp ht with ⟨ts1, hts1, hts⟩
                subst hts
                have hstrip : stripWs (')' :: rest) = ')' :: stripWs rest :=
                  stripWs_cons_keep _ (by decide)
                rw [hstrip] at hf2 ⊢
                rw [noAdjNumB_cons_close] at hadj
                cases f2 with
                | zero => exact absurd hf2 (by simp)
                | succ f2 =>
                  rw [tokenizeAux_close f2 (stripWs rest)]
                  have hrec : tokenizeAux f2 (stripWs rest) = some ts1 := by
                    refine ih rest f1 f2 ts1 hlenr ?_ ?_ hts1 hadj
                    · simp at hf1; omega
                    · simp at hf2; omega
                  rw [hrec]; rfl
              · by_cases hsp : isSpaceJS c = true
                · rw [tokenizeAux_space f1 c rest hsp] at ht
                  rw [stripWs_cons_space rest hsp] at hf2 ⊢
                  refine ih rest f1 f2 ts hlenr ?_ hf2 ht hadj
                  simp at hf1; omega
                · exact absurd ht (by simp [tokenizeAux, hu, hdg, hop, hcl, hsp])

/-! ### C5 development, part 4: accepted token streams have no adjacent
number tokens -/

theorem parseGroup_ok_headNotNumber (oracle : String → Bool) (f : Nat)
    (acc : List (String × Nat)) (ts : List Token) (m : List (String × Nat))
    (rest : List Token) (h : parseGroup oracle f acc ts = Except.ok (m, rest)) :
    headNotNumber ts := by
  cases f with
  | zero => exact absurd h (by simp [parseGroup])
  | succ f =>
    cases ts with
    | nil => trivial
    | cons t r =>
      cases t with
      | number ds => exact absurd h (by simp [parseGroup])
      | element sym => trivial
      | openParen => trivial
      | closeParen => trivial

theorem parseGroup_noAdjNum (oracle : String → Bool) :
    ∀ (f : Nat) (acc : List (String × Nat)) (ts : List Token) (m : List (String × Nat))
      (rest : List Token),
      parseGroup oracle f acc ts = Except.ok (m, rest) → noAdjNumB rest = true →
      noAdjNumB ts = true := by
  intro f
  induction f with
  | zero =>
    intro acc ts m rest h _
    exact absurd h (by simp [parseGroup])
  | succ f ih =>
    intro acc ts m rest h hrest
    cases ts with
    | nil => rfl
    | cons t r =>
      cases t with
      | number ds => exact absurd h (by simp [parseGroup])
      | closeParen =>
        have hr : rest = Token.closeParen :: r := by
          simp [parseGroup] at h
          exact h.2.symm
        rw [hr] at hrest
        exact hrest
      | element sym =>
        simp only [parseGroup] at h
        by_cases ho : oracle sym = true
        · rw [if_pos ho] at h
          cases r with
          | nil =>
            dsimp only at h
            have h1 := ih _ _ _ _ h hrest
            rw [noAdjNumB_cons_elem]
            exact h1
          | cons t2 r2 =>
            cases t2 with
            | number ds2 =>
              dsimp only at h
              by_cases hcnt :
                  (decide (digitsToNat ds2 = 0) || decide (digitsToNat ds2 > 1000)) = true
              · rw [if_pos hcnt] at h
                exact absurd h (by simp)
              · rw [if_neg hcnt] at h
                have h1 := ih _ _ _ _ h hrest
                have hh2 := parseGroup_ok_headNotNumber oracle f _ _ _ _ h
                rw [noAdjNumB_cons_elem]
                exact noAdjNumB_num_intro ds2 r2 h1 hh2
            | element s2 =>
              dsimp only at h
              have h1 := ih _ _ _ _ h hrest
              rw [noAdjNumB_cons_elem]
              exact h1
            | openParen =>
              dsimp only at h
              have h1 := ih _ _ _ _ h hrest
              rw [noAdjNumB_cons_elem]
              exact h1
            | closeParen =>
              dsimp only at h
              have h1 := ih _ _ _ _ h hrest
              rw [noAdjNumB_cons_elem]
              exact h1
        · rw [if_neg (by simpa using ho)] at h
          exact absurd h (by simp)
      | openParen =>
        simp only [parseGroup] at h
        rcases hn : parseGroup oracle f [] r with e | p
        · rw [hn] at h
          exact absurd h (by simp)
        · rcases p with ⟨inner, rest2⟩
          rw [hn] at h
          dsimp only at h
          cases rest2 with
          | nil => exact absurd h (by simp)
          | cons t2 r3 =>
            cases t2 with
            | number ds2 => exact absurd h (by simp)
            | element s2 => exact absurd h (by simp)
            | openParen => exact absurd h (by simp)
            | closeParen =>
              cases r3 with
              | nil =>
                have h3 := ih _ _ _ _ hn (show noAdjNumB [Token.closeParen] = true from rfl)
                rw [noAdjNumB_cons_open]
                exact h3
              | cons t3 r4 =>
                cases t3 with
                | number ds3 =>
                  dsimp only at h
                  by_cases hcnt :
                      (decide (digitsToNat ds3 = 0) || decide (digitsToNat ds3 > 1000)) = true
                  · rw [if_pos hcnt] at h
                    exact absurd h (by simp)
                  · rw [if_neg hcnt] at h
                    have h1 := ih _ _ _ _ h hrest
                    have hh4 := parseGroup_ok_headNotNumber oracle f _ _ _ _ h
                    have h2 : noAdjNumB (Token.closeParen :: Token.number ds3 :: r4) = true := by
                      rw [noAdjNumB_cons_close]
                      exact noAdjNumB_num_intro ds3 r4 h1 hh4
                    have h3 := ih _ _ _ _ hn h2
                    rw [noAdjNumB_cons_open]
                    exact h3
                | element s3 =>
                  dsimp only at h
                  have h1 := ih _ _ _ _ h hrest
                  have h2 : noAdjNumB (Token.closeParen :: Token.element s3 :: r4) = true := by
                    rw [noAdjNumB_cons_close, noAdjNumB_cons_elem]
                    rw [noAdjNumB_cons_elem] at h1
                    exact h1
                  have h3 := ih _ _ _ _ hn h2
                  rw [noAdjNumB_cons_open]
                  exact h3
                | openParen =>
                  dsimp only at h
                  have h1 := ih _ _ _ _ h hrest
                  have h2 : noAdjNumB (Token.closeParen :: Token.openParen :: r4) = true := by
                    rw [noAdjNumB_cons_close, noAdjNumB_cons_open]
                    rw [noAdjNumB_cons_open] at h1
                    exact h1
                  have h3 := ih _ _ _ _ hn h2
                  rw [noAdjNumB_cons_open]
                  exact h3
                | closeParen =>
                  dsimp only at h
                  have h1 := ih _ _ _ _ h hrest
                  have h2 : noAdjNumB (Token.closeParen :: Token.closeParen :: r4) = true := by
                    rw [noAdjNumB_cons_close, noAdjNumB_cons_close]
                    rw [noAdjNumB_cons_close] at h1
                    exact h1
                  have h3 := ih _ _ _ _ hn h2
                  rw [noAdjNumB_cons_open]
                  exact h3

/-! ### C5 development, part 5: assembling the parser-idempotence claim -/

theorem jsTrim_eq_self_of_nospace {l : List Char} (h : ∀ c ∈ l, isSpaceJS c = false) :
    jsTrim l = l := by
  unfold jsTrim
  have h1 : l.dropWhile isSpaceJS = l := by
    apply dropWhile_self_of_head
    intro e he
    cases l with
    | nil => exact absurd he (by simp)
    | cons c rest =>
      have : c = e := by simpa using he
      subst this
      exact h c (List.mem_cons_self c rest)
  rw [h1]
  have h2 : l.reverse.dropWhile isSpaceJS = l.reverse := by
    apply dropWhile_self_of_head
    intro e he
    cases hrev : l.reverse with
    | nil => rw [hrev] at he; exact absurd he (by simp)
    | cons c rest =>
      rw [hrev] at he
      have : c = e := by simpa using he
      subst this
      have : c ∈ l := by
        rw [← List.mem_reverse, hrev]
        exact List.mem_cons_self c rest
      exact h c this
  rw [h2, List.reverse_reverse]

theorem mem_stripWs {l : List Char} {x : Char} (h : x ∈ stripWs l) :
    x ∈ l ∧ isSpaceJS x = false := by
  have := List.mem_filter.mp h
  exact ⟨this.1, by simpa using this.2⟩

/-- C5: whenever `parseChemicalFormula` accepts a formula, it also accepts
the normalized formula (whitespace removed) and produces the identical
element sequence, hence the identical element-symbol → total-count mapping. -/
theorem C5_normalize_preserves_parse (oracle : String → Bool) (f : List Char)
    (h : (parseChemicalFormula oracle f).isValid = true) :
    (parseChemicalFormula oracle (normalizeFormula f)).isValid = true ∧
    (parseChemicalFormula oracle (normalizeFormula f)).elements =
      (parseChemicalFormula oracle f).elements := by
  by_cases h1 : jsTrim f = []
  · rw [parseChemicalFormula, if_pos h1] at h
    exact absurd h (by simp)
  · by_cases h2 : (jsTrim f).length > 50
    · rw [parseChemicalFormula, if_neg h1, if_pos h2] at h
      exact absurd h (by simp)
    · by_cases h3 : (tokenize (jsTrim f)).isEmpty = true
      · rw [parseChemicalFormula, if_neg h1, if_neg h2] at h
        simp only [h3, if_true] at h
        exact absurd h (by simp)
      · by_cases h4 : (runFormulaParse oracle (tokenize (jsTrim f))).isValid = true
        · by_cases h5 :
              ((runFormulaParse oracle (tokenize (jsTrim f))).elements.map
                (fun p => ParsedElement.mk p.1 p.2)).foldl (fun s e => s + e.count) 0 > 1000
          · rw [parseChemicalFormula, if_neg h1, if_neg h2] at h
            simp only [h3, if_false, h4, if_true, h5, if_true] at h
            exact absurd h (by simp)
          · -- the valid case: collect the token stream
            rcases hta : tokenizeAux ((jsTrim f).length + 1) (jsTrim f) with _ | ts
            · exact absurd h3 (by simp [tokenize, hta])
            · have htokf : tokenize (jsTrim f) = ts := by simp [tokenize, hta]
              have htsne : ts ≠ [] := by
                intro hnil
                rw [htokf, hnil] at h3
                exact h3 rfl
              -- the parse of ts succeeded with no leftover
              rcases hpg : parseGroup oracle (ts.length + 1) [] ts with e | p
              · rw [htokf] at h4
                unfold runFormulaParse at h4
                rw [hpg] at h4
                exact absurd h4 (by simp)
              · rcases p with ⟨m, rest⟩
                by_cases hre : rest.isEmpty = true
                · have hrest : rest = [] := by
                    cases rest with
                    | nil => rfl
                    | cons a b => exact absurd hre (by simp)
                  subst hrest
                  have hadj : noAdjNumB ts = true :=
                    parseGroup_noAdjNum oracle (ts.length + 1) [] ts m [] hpg rfl
                  -- characters of the trimmed formula
                  have hwc := tokenizeAux_wordchars (jsTrim f).length (jsTrim f)
                    ((jsTrim f).length + 1) ts le_rfl hta
                  -- the normalized formula is the whitespace-stripped trim
                  have hNne : stripWs (jsTrim f) ≠ [] := by
                    intro hnil
                    have hall := stripWs_all_space hnil
                    have h0 : tokenizeAux ((jsTrim f).length + 1) (jsTrim f) = some [] :=
                      tokenizeAux_all_space (jsTrim f).length (jsTrim f)
                        ((jsTrim f).length + 1) le_rfl (by omega) hall
                    rw [hta] at h0
                    exact htsne (by simpa using h0)
                  have hNwc : (stripWs (jsTrim f)).all isWordCharJS = true := by
                    rw [List.all_eq_true]
                    intro x hx
                    rcases mem_stripWs hx with ⟨hmem, hnsp⟩
                    rcases hwc x hmem with hsp | hw
                    · rw [hsp] at hnsp; exact absurd hnsp (by simp)
                    · exact hw
                  have hfne : f ≠ [] := by
                    intro hnil
                    rw [hnil] at h1
                    exact h1 rfl
                  have hnorm : normalizeFormula f = stripWs (jsTrim f) := by
                    unfold normalizeFormula
                    rw [if_neg hfne]
                    simp only [hNne, hNwc]
                    simp
                  -- no whitespace survives stripping
                  have hNnospace : ∀ c ∈ stripWs (jsTrim f), isSpaceJS c = false :=
                    fun c hc => (mem_stripWs hc).2
                  have hjtN : jsTrim (stripWs (jsTrim f)) = stripWs (jsTrim f) :=
                    jsTrim_eq_self_of_nospace hNnospace
                  -- the stripped formula tokenizes to the same stream
                  have htaN : tokenizeAux ((stripWs (jsTrim f)).length + 1)
                      (stripWs (jsTrim f)) = some ts :=
                    tokenizeAux_stripWs (jsTrim f).length (jsTrim f)
                      ((jsTrim f).length + 1) ((stripWs (jsTrim f)).length + 1) ts
                      le_rfl (by omega) (by omega) hta hadj
                  have htokN : tokenize (stripWs (jsTrim f)) = ts := by
                    simp [tokenize, htaN]
                  -- evaluate the parse of the normalized formula
                  have hlenN : ¬((stripWs (jsTrim f)).length > 50) := by
                    have : (stripWs (jsTrim f)).length ≤ (jsTrim f).length :=
                      List.length_filter_le _ _
                    omega
                  rw [htokf] at h4 h5
                  have htsie : ¬(ts.isEmpty = true) := by
                    cases ts with
                    | nil => exact absurd rfl htsne
                    | cons a b => simp
                  have hresN : parseChemicalFormula oracle (stripWs (jsTrim f)) =
                      { elements := (runFormulaParse oracle ts).elements.map
                          (fun p => ParsedElement.mk p.1 p.2),
                        formula := stripWs (jsTrim f), isValid := true, error := none } := by
                    unfold parseChemicalFormula
                    rw [hjtN, if_neg hNne]
                    try dsimp only
                    rw [if_neg hlenN]
                    try dsimp only
                    rw [htokN, if_neg htsie]
                    try dsimp only
                    rw [if_pos h4]
                    try dsimp only
                    rw [if_neg h5]
                  have hresf : parseChemicalFormula oracle f =
                      { elements := (runFormulaParse oracle ts).elements.map
                          (fun p => ParsedElement.mk p.1 p.2),
                        formula := jsTrim f, isValid := true, error := none } := by
                    unfold parseChemicalFormula
                    rw [if_neg h1]
                    try dsimp only
                    rw [if_neg h2]
                    try dsimp only
                    rw [htokf, if_neg htsie]
                    try dsimp only
                    rw [if_pos h4]
                    try dsimp only
                    rw [if_neg h5]
                  refine ⟨?_, ?_⟩
                  · rw [hnorm, hresN]
                  · rw [hnorm, hresN, hresf]
                · rw [htokf] at h4
                  unfold runFormulaParse at h4
                  rw [hpg] at h4
                  simp only [hre, if_false] at h4
                  exact absurd h4 (by simp)
        · rw [parseChemicalFormula, if_neg h1, if_neg h2] at h
          simp only [h3, if_false] at h
          rw [if_neg h4] at h
          exact absurd h (by simp)

/-- Witness for C5 at the concrete formula " H 2 O" (with interior
whitespace): parsing succeeds before and after normalization with the same
element sequence. -/
theorem C5_witness :
    (parseChemicalFormula sampleOracle (normalizeFormula " H 2 O".toList)).isValid = true ∧
    (parseChemicalFormula sampleOracle (normalizeFormula " H 2 O".toList)).elements =
      (parseChemicalFormula sampleOracle " H 2 O".toList).elements :=
  C5_normalize_preserves_parse sampleOracle " H 2 O".toList (by decide)
